import Mathlib

set_option autoImplicit false

universe u

/-!
Shallow embedding of `src/double_key_table.py` (`DoubleKeyTable`), together
with the `LinearProbeTable` it builds on.  `LinearProbeTable` lives in
`data_structures/hash_table.py`, which is not among the provided sources, so
every definition for it is modelled from the spec (§4.2-§4.5) and marked as
such.  Keys are strings (the hash functions are defined over character
sequences); values stay polymorphic.  Python integers are embedded as `Int`
where they can be decremented (`count`, `table_count`), and array indices as
`Nat` with explicit `% capacity`.  Python exceptions are surfaced as an error
code next to the post-state, because the caller of a raising Python method
still observes every mutation made before the raise.
-/

/-- Python exception kinds raised by the code under study. -/
inductive Err where
  | keyError
  | fullError
  | indexError
  | attrError
  | typeError
deriving DecidableEq, Repr

/-- A slot of an open-addressed table: empty (`None`) or `(key, payload)`. -/
abbrev Slot (β : Type u) := Option (String × β)

/-- Read `array[i]`; out-of-range reads as empty (call sites always reduce the
index modulo the length first). -/
def slotAt {β : Type u} (arr : List (Slot β)) (i : Nat) : Slot β :=
  arr.getD i none

/-- The key stored at slot `i`, if any. -/
def keyAt {β : Type u} (arr : List (Slot β)) (i : Nat) : Option String :=
  (slotAt arr i).map Prod.fst

/-- One step of the rolling hash of `DoubleKeyTable.hash1`/`hash2`
(src 41-65, `HASH_BASE = 31`): the pair is `(value, a)` and the step is
`value = (ord c + a * value) % cap; a = a * 31 % (cap - 1)`. -/
def hashStep (cap : Nat) (p : Nat × Nat) (c : Char) : Nat × Nat :=
  ((c.toNat + p.2 * p.1) % cap, p.2 * 31 % (cap - 1))

/-- The rolling polynomial hash of `DoubleKeyTable.hash1`/`hash2`, reduced
modulo `cap`, starting from `value = 0`, `a = 31415`. -/
def polyHash (key : String) (cap : Nat) : Nat :=
  (key.data.foldl (hashStep cap) (0, 31415)).1

/-- The same recurrence exactly as the spec §4.1 writes it (used to state
claim C9): direct recursion over the character list carrying `value` and
`a`. -/
def specHashAux (cap : Nat) : List Char → Nat → Nat → Nat
  | [], value, _a => value
  | c :: cs, value, a => specHashAux cap cs ((c.toNat + a * value) % cap) (a * 31 % (cap - 1))

/-- Spec §4.1 rolling hash: `value = 0; a = 31415; for each character c:
value = (code c + a*value) mod cap; a = (a * 31) mod (cap - 1)`. -/
def specHash (key : String) (cap : Nat) : Nat :=
  specHashAux cap key.data 0 31415

/-- `LinearProbeTable` state.  Modelled from the spec: a fixed-capacity array
of slots plus `count` and a position in its own capacity sequence.  Its hash
function for a key is always the rolling hash reduced modulo its *current*
capacity: the closures bound in `DoubleKeyTable._linear_probe` (src 88-89)
and `__setitem__` (src 208) always re-bind `hash` to `hash2(k, table)`,
which reads only `table.table_size`. -/
structure LPT (V : Type u) where
  array : List (Slot V)
  count : Int
  size_index : Nat
  sizes : List Nat

/-- `DoubleKeyTable.hash2` (src 54-65): rolling hash of the 2nd key reduced
modulo the given inner table's own current capacity. -/
def hash2 {V : Type u} (k : String) (t : LPT V) : Nat :=
  polyHash k t.array.length

/-- `LinearProbeTable(sizes)` construction.  Modelled from the spec
lifecycle: created empty with the first capacity of its sequence. -/
def freshInner {V : Type u} (sizes : List Nat) : LPT V :=
  { array := List.replicate (sizes.headD 0) none
    count := 0
    size_index := 0
    sizes := sizes }

/-- Outcome of the scanning loop shared by `_linear_probe` at both levels:
first slot along the probe sequence that holds the key, first empty slot, or
exhaustion after `fuel` (= one table size) steps. -/
inductive Probe where
  | found (j : Nat)
  | vacant (j : Nat)
  | exhausted
deriving DecidableEq, Repr

/-- The linear scan of `_linear_probe` (src 83-96 and spec §4.2): check the
slot, stop on empty or on a key match, otherwise advance by
`(pos + 1) % capacity`; give up after `fuel` steps. -/
def probeFind {β : Type u} (arr : List (Slot β)) (k : String) : Nat → Nat → Probe
  | _pos, 0 => .exhausted
  | pos, fuel + 1 =>
    match slotAt arr pos with
    | none => .vacant pos
    | some (k', _) =>
      if k' = k then .found pos
      else probeFind arr k ((pos + 1) % arr.length) fuel

/-- Modelled from the spec §4.2: `LinearProbeTable._linear_probe`, the
identical scan recursed into the inner table; exhausting the full capacity
signals fullness rather than a missing key.  Pure: the inner scan never
mutates. -/
def innerProbe {V : Type u} (t : LPT V) (k : String) (isInsert : Bool) : Except Err Nat :=
  match probeFind t.array k (hash2 k t) t.array.length with
  | .found j => .ok j
  | .vacant j => if isInsert then .ok j else .error .keyError
  | .exhausted => .error .fullError

/-- Modelled from the spec §4.5: `LinearProbeTable._rehash`.  Allocate the
next capacity of the table's own sequence (fails when the sequence is
exhausted), walk the old array in storage order and reinsert every entry by
key with fresh hashes against the new capacity; reinsertion probes, so it
never loses entries, and it never cascades into a further resize. -/
def innerRehash {V : Type u} (t : LPT V) : LPT V × Except Err Unit :=
  let newIdx := t.size_index + 1
  match t.sizes.get? newIdx with
  | none => (t, .error .indexError)
  | some newLen =>
    let step := fun (acc : List (Slot V) × Except Err Unit) (s : Slot V) =>
      match acc.2, s with
      | .ok _, some (k, v) =>
        match probeFind acc.1 k (polyHash k newLen) newLen with
        | .found j => (acc.1.set j (some (k, v)), .ok ())
        | .vacant j => (acc.1.set j (some (k, v)), .ok ())
        | .exhausted => (acc.1, .error .fullError)
      | _, _ => acc
    let r := t.array.foldl step (List.replicate newLen none, .ok ())
    match r.2 with
    | .ok _ => ({ t with array := r.1, size_index := newIdx }, .ok ())
    | .error e => (t, .error e)

/-- Modelled from the spec §4.3: `LinearProbeTable.__setitem__`.  Probe for
insert, bump `count` when the landing slot was empty, write `(k, v)`, then
rehash when the occupancy exceeds half the capacity. -/
def innerSet {V : Type u} (t : LPT V) (k : String) (v : V) : LPT V × Except Err Unit :=
  match innerProbe t k true with
  | .error e => (t, .error e)
  | .ok j =>
    let t₁ :=
      match slotAt t.array j with
      | none => { t with count := t.count + 1 }
      | some _ => t
    let t₂ := { t₁ with array := t₁.array.set j (some (k, v)) }
    if 2 * t₂.count > (t₂.array.length : Int) then innerRehash t₂ else (t₂, .ok ())

/-- Modelled from the spec §4.4: the inner cluster-repair walk.  Starting
just after a cleared slot, clear each contiguous following occupied slot and
reinsert its entry from scratch at its probe landing position. -/
def innerWalk {V : Type u} : List (Slot V) → Nat → Nat → List (Slot V) × Except Err Unit
  | arr, _pos, 0 => (arr, .ok ())
  | arr, pos, fuel + 1 =>
    match slotAt arr pos with
    | none => (arr, .ok ())
    | some (k, v) =>
      let arr₁ := arr.set pos none
      match probeFind arr₁ k (polyHash k arr₁.length) arr₁.length with
      | .found j => innerWalk (arr₁.set j (some (k, v))) ((pos + 1) % arr.length) fuel
      | .vacant j => innerWalk (arr₁.set j (some (k, v))) ((pos + 1) % arr.length) fuel
      | .exhausted => (arr₁, .error .fullError)

/-- Modelled from the spec §4.4: `LinearProbeTable.__delitem__`.  Probe
(non-insert), clear the slot, decrement `count`, repair the following
cluster. -/
def innerDel {V : Type u} (t : LPT V) (k : String) : LPT V × Except Err Unit :=
  match innerProbe t k false with
  | .error e => (t, .error e)
  | .ok j =>
    let r := innerWalk (t.array.set j none) ((j + 1) % t.array.length) t.array.length
    ({ t with array := r.1, count := t.count - 1 }, r.2)

/-- Modelled from the spec §4.6: `LinearProbeTable.keys`, storage order. -/
def innerKeys {V : Type u} (t : LPT V) : List String :=
  t.array.filterMap (fun sl => sl.map Prod.fst)

/-- Modelled from the spec §4.6: `LinearProbeTable.values`, storage order. -/
def innerValues {V : Type u} (t : LPT V) : List V :=
  t.array.filterMap (fun sl => sl.map Prod.snd)

/-- `DoubleKeyTable` state (src 32-39): the outer open-addressed array of
`(key1, inner table)` slots plus the bookkeeping fields of `__init__`. -/
structure DKT (V : Type u) where
  array : List (Slot (LPT V))
  count : Int
  table_count : Int
  size_index : Nat
  sizes : List Nat
  internal_sizes : List Nat

/-- `DoubleKeyTable.TABLE_SIZES` (src 27-28). -/
def TABLE_SIZES : List Nat :=
  [5, 13, 29, 53, 97, 193, 389, 769, 1543, 3079, 6151,
   12289, 24593, 49157, 98317, 196613, 393241, 786433, 1572869]

/-- `DoubleKeyTable.__init__(sizes, internal_sizes)` (src 32-39). -/
def initDKT {V : Type u} (szs iszs : Option (List Nat)) : DKT V :=
  let sz := szs.getD TABLE_SIZES
  let isz := iszs.getD TABLE_SIZES
  { array := List.replicate (sz.headD 0) none
    count := 0
    table_count := 0
    size_index := 0
    sizes := sz
    internal_sizes := isz }

/-- `DoubleKeyTable.hash1` (src 41-52): rolling hash of the 1st key reduced
modulo the outer table's current capacity. -/
def hash1 {V : Type u} (s : DKT V) (k : String) : Nat :=
  polyHash k s.array.length

/-- `DoubleKeyTable._linear_probe(key1, key2, is_insert)` (src 67-97).  The
loop mutates only when it lands on an empty slot with `is_insert`
(materialising a fresh inner table there and bumping `table_count`, src
86-90); the scan itself is `probeFind`.  Exhaustion raises FullError also
for lookups (src 97).  The `.found`/`none` combination cannot occur; it is
kept so the match is total. -/
def outerProbe {V : Type u} (s : DKT V) (k1 k2 : String) (isInsert : Bool) :
    DKT V × Except Err (Nat × Nat) :=
  match probeFind s.array k1 (hash1 s k1) s.array.length with
  | .vacant j =>
    if isInsert then
      let t : LPT V := freshInner s.internal_sizes
      let s' := { s with array := s.array.set j (some (k1, t)),
                         table_count := s.table_count + 1 }
      match innerProbe t k2 isInsert with
      | .ok p2 => (s', .ok (j, p2))
      | .error e => (s', .error e)
    else (s, .error .keyError)
  | .found j =>
    match slotAt s.array j with
    | some (_, t) =>
      match innerProbe t k2 isInsert with
      | .ok p2 => (s, .ok (j, p2))
      | .error e => (s, .error e)
    | none => (s, .error .typeError)
  | .exhausted => (s, .error .fullError)

/-- `DoubleKeyTable.__getitem__` (src 180-191): probe without inserting, then
read `self.array[p1][1].array[p2][1]`. -/
def getItem {V : Type u} (s : DKT V) (k1 k2 : String) : Except Err V :=
  match (outerProbe s k1 k2 false).2 with
  | .error e => .error e
  | .ok (p1, p2) =>
    match slotAt s.array p1 with
    | some (_, t) =>
      match slotAt t.array p2 with
      | some (_, v) => .ok v
      | none => .error .typeError
    | none => .error .typeError

/-- `DoubleKeyTable.__contains__` (src 167-178): `self[key]` wrapped in
`try/except KeyError`; any other exception propagates to the caller. -/
def containsDKT {V : Type u} (s : DKT V) (k1 k2 : String) : Except Err Bool :=
  match getItem s k1 k2 with
  | .ok _ => .ok true
  | .error .keyError => .ok false
  | .error e => .error e

/-- `DoubleKeyTable._rehash` (src 240-255): bump `size_index`, allocate the
next size (IndexError when the list is exhausted, with `size_index` already
bumped), set `count` to 0, then copy every occupied old slot in storage
order to `new[hash1(key)]` directly — no probing, so keys that collide under
the new capacity overwrite each other. -/
def outerRehash {V : Type u} (s : DKT V) : DKT V × Except Err Unit :=
  let newIdx := s.size_index + 1
  match s.sizes.get? newIdx with
  | none => ({ s with size_index := newIdx }, .error .indexError)
  | some newLen =>
    let newArr := s.array.foldl
      (fun acc slot =>
        match slot with
        | none => acc
        | some (k, t) => acc.set (polyHash k newLen) (some (k, t)))
      (List.replicate newLen none)
    ({ s with array := newArr, size_index := newIdx, count := 0 }, .ok ())

/-- `DoubleKeyTable.__setitem__` (src 193-210): probe for insert, bump
`count` when the inner landing slot was empty, write through the inner
table, then rehash the outer table when `table_count > table_size / 2`. -/
def setItem {V : Type u} (s : DKT V) (k1 k2 : String) (v : V) : DKT V × Except Err Unit :=
  match outerProbe s k1 k2 true with
  | (s₀, .error e) => (s₀, .error e)
  | (s₀, .ok (p1, p2)) =>
    match slotAt s₀.array p1 with
    | none => (s₀, .error .typeError)
    | some (k1s, t) =>
      let s₁ :=
        match slotAt t.array p2 with
        | none => { s₀ with count := s₀.count + 1 }
        | some _ => s₀
      let r := innerSet t k2 v
      let s₂ := { s₁ with array := s₁.array.set p1 (some (k1s, r.1)) }
      match r.2 with
      | .error e => (s₂, .error e)
      | .ok _ =>
        if 2 * s₂.table_count > (s₂.array.length : Int) then outerRehash s₂
        else (s₂, .ok ())

/-- The repair walk of `DoubleKeyTable.__delitem__` (src 231-238): clear each
contiguous following occupied outer slot, then reinsert it by running
`_linear_probe(key2, k2, True)` (which may materialise a throw-away fresh
inner table at the landing slot and bump `table_count`) and overwriting the
landing slot with the saved `(key2, value)` pair.  `k2` is the just-deleted
second key, passed along verbatim as in the source.  The `while` loop is
bounded here by a fuel of one table size. -/
def outerWalk {V : Type u} (k2 : String) : DKT V → Nat → Nat → DKT V × Except Err Unit
  | s, _pos, 0 => (s, .ok ())
  | s, pos, fuel + 1 =>
    match slotAt s.array pos with
    | none => (s, .ok ())
    | some (key1, t) =>
      let s₁ := { s with array := s.array.set pos none }
      match outerProbe s₁ key1 k2 true with
      | (s₂, .ok (np, _)) =>
        outerWalk k2 { s₂ with array := s₂.array.set np (some (key1, t)) }
          ((pos + 1) % s.array.length) fuel
      | (s₂, .error e) => (s₂, .error e)

/-- `DoubleKeyTable.__delitem__` (src 212-238): probe without inserting,
delete the second key inside the inner table, decrement `count`; when the
inner table became empty, clear the outer slot, decrement `table_count` and
run the repair walk from the following position. -/
def delItem {V : Type u} (s : DKT V) (k1 k2 : String) : DKT V × Except Err Unit :=
  match outerProbe s k1 k2 false with
  | (s₀, .error e) => (s₀, .error e)
  | (s₀, .ok (p1, _p2)) =>
    match slotAt s₀.array p1 with
    | none => (s₀, .error .typeError)
    | some (k1s, t) =>
      let r := innerDel t k2
      match r.2 with
      | .error e => ({ s₀ with array := s₀.array.set p1 (some (k1s, r.1)) }, .error e)
      | .ok _ =>
        let s₁ := { s₀ with array := s₀.array.set p1 (some (k1s, r.1)),
                            count := s₀.count - 1 }
        if r.1.count = 0 then
          let s₂ := { s₁ with array := s₁.array.set p1 none,
                              table_count := s₁.table_count - 1 }
          outerWalk k2 s₂ ((p1 + 1) % s₂.array.length) s₂.array.length
        else (s₁, .ok ())

/-- `DoubleKeyTable.__len__` (src 264-268): returns `self.count`. -/
def lenDKT {V : Type u} (s : DKT V) : Int :=
  s.count

/-- The scoped branch of `DoubleKeyTable.keys` (src 128-130): inner keys of
the first storage-order slot bound to `k`, or Python's implicit `None` when
the loop falls through without returning. -/
def keysScoped {V : Type u} : List (Slot (LPT V)) → String → Option (List String)
  | [], _ => none
  | none :: rest, k => keysScoped rest k
  | some (k', t) :: rest, k => if k' = k then some (innerKeys t) else keysScoped rest k

/-- `DoubleKeyTable.keys` (src 117-130). -/
def keysDKT {V : Type u} (s : DKT V) (k? : Option String) : Option (List String) :=
  match k? with
  | none => some (s.array.filterMap (fun sl => sl.map Prod.fst))
  | some k => keysScoped s.array k

/-- The scoped branch of `DoubleKeyTable.values` (src 162-165): inner values
of the first slot bound to `k`, or `[]` when the loop falls through. -/
def valuesScoped {V : Type u} : List (Slot (LPT V)) → String → List V
  | [], _ => []
  | none :: rest, k => valuesScoped rest k
  | some (k', t) :: rest, k => if k' = k then innerValues t else valuesScoped rest k

/-- `DoubleKeyTable.values` (src 151-165). -/
def valuesDKT {V : Type u} (s : DKT V) (k? : Option String) : List V :=
  match k? with
  | none => (s.array.filterMap (fun sl => sl.map (fun p => innerValues p.2))).flatten
  | some k => valuesScoped s.array k

/-- `DoubleKeyTable.iter_keys` (src 99-115).  With `key = some k` the body's
first statement calls `self.get_inner_table(key)`, a method defined nowhere
on the class (nor anywhere in the repository), so advancing the returned
generator raises AttributeError before any key is produced. -/
def iterKeys {V : Type u} (s : DKT V) (k? : Option String) : Except Err (List String) :=
  match k? with
  | some _ => .error .attrError
  | none => .ok (s.array.filterMap (fun sl => sl.map Prod.fst))

/-- Equality of `Except` results is decidable when both components are. -/
instance exceptDecEq {ε α : Type u} [DecidableEq ε] [DecidableEq α] :
    DecidableEq (Except ε α) := fun a b =>
  match a, b with
  | .ok x, .ok y =>
    if h : x = y then .isTrue (congrArg _ h)
    else .isFalse (fun hh => h (Except.ok.inj hh))
  | .error e, .error f =>
    if h : e = f then .isTrue (congrArg _ h)
    else .isFalse (fun hh => h (Except.error.inj hh))
  | .ok _, .error _ => .isFalse (fun h => Except.noConfusion h)
  | .error _, .ok _ => .isFalse (fun h => Except.noConfusion h)

/-! ### Concrete scenario states used by the claims -/

/-- Number of occupied slots of an open-addressed array. -/
def occupiedCount {V : Type u} (arr : List (Slot V)) : Nat :=
  (arr.filterMap id).length

/-- Empty table with the default sizes.  Single-character outer keys hash to
`ord(c) % capacity`: "a" ↦ 2, "b" ↦ 3, "n" ↦ 0 modulo the initial capacity 5
and "a" ↦ 6, "b" ↦ 7, "n" ↦ 6 modulo the next capacity 13. -/
def exA0 : DKT Int := initDKT none none

/-- After `set("a","x",1)`. -/
def exA1 : DKT Int := (setItem exA0 "a" "x" 1).1

/-- After `set("a","x",1)` then `set("b","x",2)`. -/
def exA2 : DKT Int := (setItem exA1 "b" "x" 2).1

/-- After `set("n","x",1)`. -/
def exB1 : DKT Int := (setItem exA0 "n" "x" 1).1

/-- After `set("n","x",1)` then `set("a","x",2)`. -/
def exB2 : DKT Int := (setItem exB1 "a" "x" 2).1

/-- After `set("n","x",1)`, `set("a","x",2)`, `set("b","x",3)`: the third
insert pushes `table_count` to 3 > 5/2 and triggers the outer resize. -/
def exB3 : DKT Int := (setItem exB2 "b" "x" 3).1

/-- Empty table with custom outer sizes `[11]`.  "Z", "e", "p" all hash to
2 modulo 11, forming one probe cluster at slots 2, 3, 4. -/
def exU0 : DKT Int := initDKT (some [11]) none

/-- Cluster scenario after `set("Z","ka",10)`. -/
def exU1 : DKT Int := (setItem exU0 "Z" "ka" 10).1

/-- Cluster scenario after two colliding inserts. -/
def exU2 : DKT Int := (setItem exU1 "e" "kb" 20).1

/-- Cluster scenario after three colliding inserts (cluster at slots 2-4). -/
def exU3 : DKT Int := (setItem exU2 "p" "kc" 30).1

/-- Cluster scenario after deleting the middle entry `("e","kb")`. -/
def exU4 : DKT Int := (delItem exU3 "e" "kb").1

/-- Empty table with custom outer sizes `[5]` (size sequence of length 1). -/
def exT0 : DKT Int := initDKT (some [5]) none

/-- After `set("n","x",1)` on the `[5]`-sized table. -/
def exT1 : DKT Int := (setItem exT0 "n" "x" 1).1

/-- After `set("n","x",1)` then `set("a","x",2)` on the `[5]`-sized table. -/
def exT2 : DKT Int := (setItem exT1 "a" "x" 2).1

/-! ### Claims settled by concrete evaluation -/

/-- C1 (refuted by the code, which contradicts its own intent): with the
default sizes and entries already present under outer keys "a" and "b",
`set("n","x",3)` succeeds, yet the immediately following `get("n","x")`
raises KeyError instead of returning 3.  The set pushes `table_count` to 3,
triggering `_rehash`, which re-files each old slot at `new[hash1(key)]`
without probing (src 255); "a" hashes to 6 modulo the new capacity 13 and
overwrites the ("n", ...) slot that was just re-filed at position 6. -/
theorem c1_roundtrip_broken :
    (setItem exA2 "n" "x" 3).2 = .ok () ∧
    getItem (setItem exA2 "n" "x" 3).1 "n" "x" = .error .keyError := by decide

/-- C2 (refuted by the code, which contradicts its own intent): the entry
("n","x") ↦ 1 is retrievable before the resize triggered by inserting the
third outer key "b", and that set succeeds, but the entry is gone
afterwards: `_rehash` re-files old slots without probing, so "a" (hash 6
modulo 13) overwrites the "n" slot in the new array. -/
theorem c2_rehash_loses_entries :
    getItem exB2 "n" "x" = .ok 1 ∧
    (setItem exB2 "b" "x" 3).2 = .ok () ∧
    getItem exB3 "n" "x" = .error .keyError := by decide

/-- C3 (refuted by the code, which contradicts its own intent): both counts
diverge from the structure.  After the resize triggered by the third insert,
`count` (hence `len()`) is 0 — `_rehash` zeroes it (src 251) and never
restores it — while entries are still reachable; and after a delete whose
repair walk ran, `table_count` is 3 while only 2 outer slots are occupied
(each repair re-insert bumps `table_count` via `_linear_probe` (src 90)
with no decrement for the slot the walk cleared). -/
theorem c3_counts_wrong :
    (lenDKT exB3 = 0 ∧ getItem exB3 "a" "x" = .ok 2 ∧ getItem exB3 "b" "x" = .ok 3) ∧
    ((delItem exU3 "e" "kb").2 = .ok () ∧ exU4.table_count = 3 ∧
      occupiedCount exU4.array = 2) := by decide

/-- C7 counterexample: for the unbound outer key "zz" the code returns
Python `None` from `keys` and `[]` from `values` instead of raising a
not-found error. -/
theorem c7_counterexample :
    keysDKT exB2 (some "zz") = none ∧ valuesDKT exB2 (some "zz") = [] := by decide

/-- C8 counterexample: on a table constructed with the one-element size
sequence `[5]`, the third insert triggers a resize that exhausts the
sequence.  The set raises IndexError, yet it has already incremented
`count` and `table_count` and committed the entry — observable
post-failure, refuting "fails before any slot or counter has been
modified". -/
theorem c8_counterexample :
    (setItem exT2 "b" "x" 3).2 = .error .indexError ∧
    (setItem exT2 "b" "x" 3).1.count = exT2.count + 1 ∧
    (setItem exT2 "b" "x" 3).1.table_count = exT2.table_count + 1 ∧
    getItem (setItem exT2 "b" "x" 3).1 "b" "x" = .ok 3 := by decide

/-- C10: for every table state and every (present or absent) outer key `k`,
the scoped `iter_keys(k)` never yields an inner key: its body first calls
`self.get_inner_table(key)`, a method defined nowhere in the repository, so
advancing the iterator raises AttributeError before producing anything. -/
theorem c10_scoped_iter_always_fails {V : Type u} (s : DKT V) (k : String) :
    iterKeys s (some k) = .error .attrError := rfl

/-! ### Hash function lemmas and claim C9 -/

theorem specHashAux_eq_foldl (cap : Nat) (cs : List Char) :
    ∀ value a, specHashAux cap cs value a = (cs.foldl (hashStep cap) (value, a)).1 := by
  induction cs with
  | nil => intro value a; rfl
  | cons c cs ih =>
    intro value a
    simpa [specHashAux, hashStep] using
      ih ((c.toNat + a * value) % cap) (a * 31 % (cap - 1))

theorem polyHash_eq_specHash (key : String) (cap : Nat) :
    polyHash key cap = specHash key cap := by
  simp [polyHash, specHash, specHashAux_eq_foldl]

theorem foldl_hashStep_lt (cap : Nat) (hcap : 0 < cap) (cs : List Char) :
    ∀ p : Nat × Nat, p.1 < cap → (cs.foldl (hashStep cap) p).1 < cap := by
  induction cs with
  | nil => intro p hp; exact hp
  | cons c cs ih =>
    intro p hp
    exact ih (hashStep cap p c) (Nat.mod_lt _ hcap)

theorem polyHash_lt (key : String) (cap : Nat) (h : 0 < cap) : polyHash key cap < cap :=
  foldl_hashStep_lt cap h key.data (0, 31415) h

/-- C9: `hash1` computes exactly the spec §4.1 rolling polynomial hash
(value starts at 0, `a` at 31415; per character
`value = (code c + a*value) mod capacity`, `a = (a*31) mod (capacity-1)`)
reduced modulo the outer capacity, with its result in `[0, capacity)`; and
`hash2` computes the same recurrence reduced modulo the given inner table's
own current capacity, with its result in `[0, inner capacity)`. -/
theorem c9_hash_functions {V : Type u} (s : DKT V) (t : LPT V) (k : String)
    (h1 : 1 < s.array.length) (h2 : 1 < t.array.length) :
    hash1 s k = specHash k s.array.length ∧ hash1 s k < s.array.length ∧
    hash2 k t = specHash k t.array.length ∧ hash2 k t < t.array.length :=
  ⟨polyHash_eq_specHash k s.array.length,
   polyHash_lt k s.array.length (Nat.lt_trans Nat.one_pos h1),
   polyHash_eq_specHash k t.array.length,
   polyHash_lt k t.array.length (Nat.lt_trans Nat.one_pos h2)⟩

/-- Witness for C9 at the initial capacity-5 table and a fresh inner table. -/
theorem c9_hash_functions_witness :
    1 < exA0.array.length ∧ 1 < (freshInner TABLE_SIZES : LPT Int).array.length ∧
    (hash1 exA0 "n" = specHash "n" exA0.array.length ∧
     hash1 exA0 "n" < exA0.array.length ∧
     hash2 "n" (freshInner TABLE_SIZES : LPT Int) =
       specHash "n" (freshInner TABLE_SIZES : LPT Int).array.length ∧
     hash2 "n" (freshInner TABLE_SIZES : LPT Int) <
       (freshInner TABLE_SIZES : LPT Int).array.length) :=
  ⟨by decide, by decide,
   c9_hash_functions exA0 (freshInner TABLE_SIZES) "n" (by decide) (by decide)⟩

/-! ### Scoped projections: claim C7 -/

/-- The lookup loop shared by the scoped `keys`/`values` branches
(src 128-130 and 162-164): the inner table of the first storage-order slot
whose key equals `k`. -/
def firstBound {V : Type u} : List (Slot (LPT V)) → String → Option (LPT V)
  | [], _ => none
  | none :: rest, k => firstBound rest k
  | some (k', t) :: rest, k => if k' = k then some t else firstBound rest k

theorem keysScoped_eq_firstBound {V : Type u} (arr : List (Slot (LPT V))) (k : String) :
    keysScoped arr k = (firstBound arr k).map innerKeys := by
  induction arr with
  | nil => rfl
  | cons sl rest ih =>
    cases sl with
    | none => simpa [keysScoped, firstBound] using ih
    | some p =>
      obtain ⟨k', t⟩ := p
      by_cases h : k' = k <;> simp [keysScoped, firstBound, h, ih]

theorem valuesScoped_eq_firstBound {V : Type u} (arr : List (Slot (LPT V))) (k : String) :
    valuesScoped arr k = ((firstBound arr k).map innerValues).getD [] := by
  induction arr with
  | nil => rfl
  | cons sl rest ih =>
    cases sl with
    | none => simpa [valuesScoped, firstBound] using ih
    | some p =>
      obtain ⟨k', t⟩ := p
      by_cases h : k' = k <;> simp [valuesScoped, firstBound, h, ih]

theorem firstBound_eq_none {V : Type u} (arr : List (Slot (LPT V))) (k : String)
    (h : ∀ sl ∈ arr, sl.map Prod.fst ≠ some k) : firstBound arr k = none := by
  induction arr with
  | nil => rfl
  | cons sl rest ih =>
    cases sl with
    | none => exact ih (fun x hx => h x (List.mem_cons_of_mem _ hx))
    | some p =>
      obtain ⟨k', t⟩ := p
      have hk : k' ≠ k := by
        intro hkk
        exact h (some (k', t)) (List.mem_cons_self _ _) (by simp [hkk])
      simp only [firstBound, if_neg hk]
      exact ih (fun x hx => h x (List.mem_cons_of_mem _ hx))

/-- C7 amended: the scoped projections never raise.  `keys(k)` returns the
first bound slot's inner keys, or Python's `None` when `k` has no outer
slot; `values(k)` returns the first bound slot's inner values, or `[]` when
`k` has no outer slot.  (The claim's "fail with a not-found error" is false
on the code: the loops fall through and return `None` / `[]`.) -/
theorem c7_scoped_projections {V : Type u} (s : DKT V) (k : String) :
    keysDKT s (some k) = (firstBound s.array k).map innerKeys ∧
    valuesDKT s (some k) = ((firstBound s.array k).map innerValues).getD [] ∧
    ((∀ sl ∈ s.array, sl.map Prod.fst ≠ some k) →
      keysDKT s (some k) = none ∧ valuesDKT s (some k) = []) := by
  refine ⟨keysScoped_eq_firstBound s.array k, valuesScoped_eq_firstBound s.array k, ?_⟩
  intro h
  have hb := firstBound_eq_none s.array k h
  constructor
  · rw [show keysDKT s (some k) = keysScoped s.array k from rfl,
        keysScoped_eq_firstBound, hb]
    rfl
  · rw [show valuesDKT s (some k) = valuesScoped s.array k from rfl,
        valuesScoped_eq_firstBound, hb]
    rfl

/-- Witness for C7's amended statement on a concrete unbound key. -/
theorem c7_scoped_projections_witness :
    (∀ sl ∈ exA0.array, sl.map Prod.fst ≠ some "q") ∧
    keysDKT exA0 (some "q") = none ∧ valuesDKT exA0 (some "q") = [] :=
  ⟨by decide, (c7_scoped_projections exA0 "q").2.2 (by decide)⟩

/-! ### Failure atomicity: claim C8 -/

/-- A non-inserting outer probe never mutates the table (the loop's only
mutation, src 86-90, is guarded by `is_insert`). -/
theorem outerProbe_false_fst {V : Type u} (s : DKT V) (k1 k2 : String) :
    (outerProbe s k1 k2 false).1 = s := by
  unfold outerProbe
  cases h : probeFind s.array k1 (hash1 s k1) s.array.length with
  | found j =>
    cases h2 : slotAt s.array j with
    | none => simp [h2]
    | some p =>
      obtain ⟨a, t⟩ := p
      cases h3 : innerProbe t k2 false <;> simp [h2, h3]
  | vacant j => simp
  | exhausted => simp

/-- C8 amended: a `set` whose insert-probe exhausts a completely full outer
table raises FullError with the table unchanged, and a `delete` whose
lookup-probe fails raises with the table unchanged; but (per the
counterexample) a `set` whose triggered resize exhausts the size sequence
commits the entry and the counter updates before raising IndexError. -/
theorem c8_failed_ops {V : Type u} (s : DKT V) (k1 k2 : String) (v : V) (e : Err) :
    (probeFind s.array k1 (hash1 s k1) s.array.length = .exhausted →
      setItem s k1 k2 v = (s, .error .fullError)) ∧
    ((outerProbe s k1 k2 false).2 = .error e →
      delItem s k1 k2 = (s, .error e)) := by
  constructor
  · intro hfull
    unfold setItem outerProbe
    rw [hfull]
  · intro herr
    have hfst := outerProbe_false_fst s k1 k2
    have hp : outerProbe s k1 k2 false = (s, Except.error e) := by
      rcases hq : outerProbe s k1 k2 false with ⟨s₀, r⟩
      rw [hq] at hfst herr
      simp only at hfst herr
      rw [hfst, herr]
    unfold delItem
    rw [hp]

/-- Witness for C8's amended statement: a full one-slot table rejects a set
unchanged, and a delete on an empty table fails unchanged. -/
def exF1 : DKT Int := (setItem (initDKT (some [1]) none) "a" "x" 1).1

theorem c8_failed_ops_witness :
    (probeFind exF1.array "q" (hash1 exF1 "q") exF1.array.length = .exhausted ∧
     setItem exF1 "q" "y" (7 : Int) = (exF1, .error .fullError)) ∧
    ((outerProbe exA0 "q" "y" false).2 = .error .keyError ∧
     delItem exA0 "q" "y" = (exA0, .error .keyError)) :=
  ⟨⟨by decide, (c8_failed_ops exF1 "q" "y" 7 Err.keyError).1 (by decide)⟩,
   ⟨by decide, (c8_failed_ops exA0 "q" "y" 7 Err.keyError).2 (by decide)⟩⟩

/-! ### Generic slot-array lemmas -/

theorem slotAt_nil {β : Type u} (i : Nat) : slotAt ([] : List (Slot β)) i = none := by
  cases i <;> rfl

theorem slotAt_cons_succ {β : Type u} (a : Slot β) (l : List (Slot β)) (i : Nat) :
    slotAt (a :: l) (i + 1) = slotAt l i := rfl

theorem slotAt_set_self {β : Type u} (arr : List (Slot β)) (i : Nat) (x : Slot β)
    (h : i < arr.length) : slotAt (arr.set i x) i = x := by
  induction arr generalizing i with
  | nil => simp at h
  | cons a l ih =>
    cases i with
    | zero => rfl
    | succ n => exact ih n (by simpa using h)

theorem slotAt_set_ne {β : Type u} (arr : List (Slot β)) (i j : Nat) (x : Slot β)
    (h : i ≠ j) : slotAt (arr.set i x) j = slotAt arr j := by
  induction arr generalizing i j with
  | nil => rfl
  | cons a l ih =>
    cases i with
    | zero =>
      cases j with
      | zero => exact absurd rfl h
      | succ m => rfl
    | succ n =>
      cases j with
      | zero => rfl
      | succ m => exact ih n m (fun hh => h (by rw [hh]))

theorem slotAt_mem {β : Type u} (arr : List (Slot β)) (i : Nat) (h : i < arr.length) :
    slotAt arr i ∈ arr := by
  induction arr generalizing i with
  | nil => simp at h
  | cons a l ih =>
    cases i with
    | zero => exact List.mem_cons_self _ _
    | succ n => exact List.mem_cons_of_mem _ (ih n (by simpa using h))

theorem keyAt_set_self {β : Type u} (arr : List (Slot β)) (i : Nat) (x : Slot β)
    (h : i < arr.length) : keyAt (arr.set i x) i = x.map Prod.fst := by
  rw [keyAt, slotAt_set_self arr i x h]

theorem keyAt_set_ne {β : Type u} (arr : List (Slot β)) (i j : Nat) (x : Slot β)
    (h : i ≠ j) : keyAt (arr.set i x) j = keyAt arr j := by
  rw [keyAt, slotAt_set_ne arr i j x h, keyAt]

theorem keyAt_none_of_slot_none {β : Type u} (arr : List (Slot β)) (i : Nat)
    (h : slotAt arr i = none) : keyAt arr i = none := by
  rw [keyAt, h]; rfl

theorem keyAt_ge_length {β : Type u} (arr : List (Slot β)) (i : Nat)
    (h : arr.length ≤ i) : keyAt arr i = none := by
  have : slotAt arr i = none := by
    induction arr generalizing i with
    | nil => exact slotAt_nil i
    | cons a l ih =>
      cases i with
      | zero => simp at h
      | succ n => exact ih n (by simpa using h)
  rw [keyAt, this]; rfl

/-! ### Counting empty slots -/

/-- Number of empty slots of an array. -/
def emptyCount {β : Type u} (arr : List (Slot β)) : Nat :=
  arr.countP (fun sl => sl.isNone)

theorem emptyCount_set {β : Type u} (arr : List (Slot β)) (i : Nat) (x : Slot β)
    (h : i < arr.length) :
    emptyCount (arr.set i x) + (if (slotAt arr i).isNone then 1 else 0)
      = emptyCount arr + (if x.isNone then 1 else 0) := by
  induction arr generalizing i with
  | nil => simp at h
  | cons a l ih =>
    cases i with
    | zero =>
      show emptyCount (x :: l) + _ = _
      simp only [emptyCount, List.countP_cons]
      have : slotAt (a :: l) 0 = a := rfl
      rw [this]
      omega
    | succ n =>
      show emptyCount (a :: l.set n x) + _ = _
      simp only [emptyCount, List.countP_cons]
      have h1 := ih n (by simpa using h)
      simp only [emptyCount] at h1
      rw [slotAt_cons_succ]
      omega

theorem exists_empty_of_pos {β : Type u} (arr : List (Slot β))
    (h : 0 < emptyCount arr) : ∃ j, j < arr.length ∧ slotAt arr j = none := by
  induction arr with
  | nil => simp [emptyCount] at h
  | cons a l ih =>
    cases ha : a with
    | none => exact ⟨0, by simp, rfl⟩
    | some p =>
      have : 0 < emptyCount l := by
        simp only [emptyCount, List.countP_cons, ha] at h ⊢
        simpa using h
      obtain ⟨j, hj, he⟩ := ih this
      exact ⟨j + 1, by simpa using hj, by rwa [slotAt_cons_succ]⟩

theorem pos_of_empty {β : Type u} (arr : List (Slot β)) (j : Nat)
    (hj : j < arr.length) (he : slotAt arr j = none) : 0 < emptyCount arr := by
  induction arr generalizing j with
  | nil => simp at hj
  | cons a l ih =>
    cases j with
    | zero =>
      have : a = none := he
      simp [emptyCount, List.countP_cons, this]
    | succ n =>
      have := ih n (by simpa using hj) (by rwa [slotAt_cons_succ] at he)
      simp only [emptyCount, List.countP_cons]
      simp only [emptyCount] at this
      omega

/-! ### Cyclic reachability and probe-scan lemmas -/

theorem cycle_reach (len pos e : Nat) (hp : pos < len) (he : e < len) :
    ∃ d, d < len ∧ (pos + d) % len = e := by
  refine ⟨(e + len - pos) % len, Nat.mod_lt _ (by omega), ?_⟩
  rw [Nat.add_mod_mod]
  have : pos + (e + len - pos) = e + len := by omega
  rw [this, Nat.add_mod_right, Nat.mod_eq_of_lt he]

theorem probeFind_found_spec {β : Type u} (arr : List (Slot β)) (k : String) :
    ∀ fuel pos j, pos < arr.length →
      probeFind arr k pos fuel = .found j → j < arr.length ∧ keyAt arr j = some k := by
  intro fuel
  induction fuel with
  | zero => intro pos j _ h; simp [probeFind] at h
  | succ n ih =>
    intro pos j hp h
    rw [probeFind] at h
    cases hs : slotAt arr pos with
    | none => rw [hs] at h; simp at h
    | some p =>
      obtain ⟨k', v⟩ := p
      rw [hs] at h
      by_cases hk : k' = k
      · simp only [if_pos hk] at h
        cases h
        exact ⟨hp, by rw [keyAt, hs, hk]; rfl⟩
      · simp only [if_neg hk] at h
        exact ih _ _ (Nat.mod_lt _ (by omega)) h

theorem probeFind_vacant_spec {β : Type u} (arr : List (Slot β)) (k : String) :
    ∀ fuel pos j, pos < arr.length →
      probeFind arr k pos fuel = .vacant j → j < arr.length ∧ slotAt arr j = none := by
  intro fuel
  induction fuel with
  | zero => intro pos j _ h; simp [probeFind] at h
  | succ n ih =>
    intro pos j hp h
    rw [probeFind] at h
    cases hs : slotAt arr pos with
    | none =>
      rw [hs] at h
      simp at h
      exact ⟨h ▸ hp, h ▸ hs⟩
    | some p =>
      obtain ⟨k', v⟩ := p
      rw [hs] at h
      by_cases hk : k' = k
      · simp [if_pos hk] at h
      · simp only [if_neg hk] at h
        exact ih _ _ (Nat.mod_lt _ (by omega)) h

theorem probeFind_vacant_of_absent {β : Type u} (arr : List (Slot β)) (k : String) :
    ∀ fuel pos, pos < arr.length →
      (∃ d, d < fuel ∧ slotAt arr ((pos + d) % arr.length) = none) →
      (∀ i, keyAt arr i ≠ some k) →
      ∃ j, probeFind arr k pos fuel = .vacant j := by
  intro fuel
  induction fuel with
  | zero => intro pos _ ⟨d, hd, _⟩ _; omega
  | succ n ih =>
    intro pos hp ⟨d, hd, he⟩ hkey
    rw [probeFind]
    cases hs : slotAt arr pos with
    | none => exact ⟨pos, rfl⟩
    | some p =>
      obtain ⟨k', v⟩ := p
      have hk : k' ≠ k := by
        intro hkk
        exact hkey pos (by rw [keyAt, hs, hkk]; rfl)
      simp only [if_neg hk]
      apply ih ((pos + 1) % arr.length) (Nat.mod_lt _ (by omega))
      · rcases d with _ | d'
        · rw [Nat.add_zero, Nat.mod_eq_of_lt hp] at he
          rw [hs] at he; cases he
        · refine ⟨d', by omega, ?_⟩
          rw [Nat.mod_add_mod]
          have : pos + 1 + d' = pos + (d' + 1) := by omega
          rw [this]
          exact he
      · exact hkey

theorem probeFind_exhausted_of_full {β : Type u} (arr : List (Slot β)) (k : String) :
    ∀ fuel pos, pos < arr.length →
      (∀ i, i < arr.length → slotAt arr i ≠ none) →
      (∀ i, keyAt arr i ≠ some k) →
      probeFind arr k pos fuel = .exhausted := by
  intro fuel
  induction fuel with
  | zero => intro pos _ _ _; rfl
  | succ n ih =>
    intro pos hp hfull hkey
    rw [probeFind]
    cases hs : slotAt arr pos with
    | none => exact absurd hs (hfull pos hp)
    | some p =>
      obtain ⟨k', v⟩ := p
      have hk : k' ≠ k := by
        intro hkk
        exact hkey pos (by rw [keyAt, hs, hkk]; rfl)
      simp only [if_neg hk]
      exact ih _ (Nat.mod_lt _ (by omega)) hfull hkey

theorem probeFind_congr_keys {β γ : Type u} (arr : List (Slot β)) (arr' : List (Slot γ))
    (k : String) (hlen : arr.length = arr'.length)
    (hkeys : ∀ i, keyAt arr i = keyAt arr' i) :
    ∀ fuel pos, probeFind arr k pos fuel = probeFind arr' k pos fuel := by
  intro fuel
  induction fuel with
  | zero => intro pos; rfl
  | succ n ih =>
    intro pos
    rw [probeFind, probeFind]
    have hk := hkeys pos
    cases hs : slotAt arr pos with
    | none =>
      have : keyAt arr' pos = none := by rw [← hk, keyAt, hs]; rfl
      have hs' : slotAt arr' pos = none := by
        rw [keyAt] at this
        exact Option.map_eq_none'.mp this
      rw [hs']
    | some p =>
      obtain ⟨k', v⟩ := p
      have : keyAt arr' pos = some k' := by rw [← hk, keyAt, hs]; rfl
      rw [keyAt] at this
      cases hs' : slotAt arr' pos with
      | none => rw [hs'] at this; cases this
      | some q =>
        obtain ⟨k'', w⟩ := q
        rw [hs'] at this
        have hkk : k' = k'' := by
          simp only [Option.map_some'] at this
          exact (Option.some.inj this).symm
        rw [hkk]
        by_cases he : k'' = k
        · simp [if_pos he]
        · simp only [if_neg he]
          rw [hlen]
          exact ih _

/-! ### Key-absence predicate and probe effect dissections -/

/-- No slot of `arr` stores the key `k`. -/
def noKey {β : Type u} (arr : List (Slot β)) (k : String) : Prop :=
  ∀ i, keyAt arr i ≠ some k

theorem lt_length_of_slot_some {β : Type u} (arr : List (Slot β)) (i : Nat)
    (p : String × β) (h : slotAt arr i = some p) : i < arr.length := by
  by_contra hge
  push_neg at hge
  have : keyAt arr i = none := keyAt_ge_length arr i hge
  rw [keyAt, h] at this
  cases this

theorem noKey_set_none {β : Type u} (arr : List (Slot β)) (i : Nat) (k : String)
    (h : noKey arr k) : noKey (arr.set i none) k := by
  intro j
  by_cases hij : i = j
  · subst hij
    by_cases hl : i < arr.length
    · rw [keyAt, slotAt_set_self arr i none hl]
      intro hh; cases hh
    · have : arr.set i none = arr := List.set_eq_of_length_le (by omega)
      rw [this]
      exact h i
  · rw [keyAt_set_ne arr i j none hij]
    exact h j

theorem noKey_set_some {β : Type u} (arr : List (Slot β)) (i : Nat) (k k' : String)
    (v : β) (hk : k' ≠ k) (h : noKey arr k) : noKey (arr.set i (some (k', v))) k := by
  intro j
  by_cases hij : i = j
  · subst hij
    by_cases hl : i < arr.length
    · rw [keyAt, slotAt_set_self arr i _ hl]
      intro hh
      exact hk (Option.some.inj hh)
    · have : arr.set i (some (k', v)) = arr := List.set_eq_of_length_le (by omega)
      rw [this]
      exact h i
  · rw [keyAt_set_ne arr i j _ hij]
    exact h j

/-! ### Unfolding equations for the outer probe -/

theorem outerProbe_true_vacant_eq {V : Type u} (s : DKT V) (k1 k2 : String) (j : Nat)
    (h : probeFind s.array k1 (hash1 s k1) s.array.length = .vacant j) :
    outerProbe s k1 k2 true =
      (match innerProbe (freshInner s.internal_sizes : LPT V) k2 true with
       | .ok p2 =>
         ({ s with array := s.array.set j (some (k1, freshInner s.internal_sizes)),
                   table_count := s.table_count + 1 }, .ok (j, p2))
       | .error e =>
         ({ s with array := s.array.set j (some (k1, freshInner s.internal_sizes)),
                   table_count := s.table_count + 1 }, .error e)) := by
  unfold outerProbe
  rw [h]
  rfl

theorem outerProbe_found_eq {V : Type u} (s : DKT V) (k1 k2 : String) (b : Bool) (j : Nat)
    (h : probeFind s.array k1 (hash1 s k1) s.array.length = .found j) :
    outerProbe s k1 k2 b =
      (match slotAt s.array j with
       | some (_, t) =>
         (match innerProbe t k2 b with
          | .ok p2 => (s, .ok (j, p2))
          | .error e => (s, .error e))
       | none => (s, .error .typeError)) := by
  unfold outerProbe
  rw [h]

theorem outerProbe_exhausted_eq {V : Type u} (s : DKT V) (k1 k2 : String) (b : Bool)
    (h : probeFind s.array k1 (hash1 s k1) s.array.length = .exhausted) :
    outerProbe s k1 k2 b = (s, .error .fullError) := by
  unfold outerProbe
  rw [h]

/-! ### The insert-mode probes and walks never raise KeyError -/

theorem innerProbe_true_ne_keyError {V : Type u} (t : LPT V) (k : String) :
    innerProbe t k true ≠ .error .keyError := by
  unfold innerProbe
  cases hp : probeFind t.array k (hash2 k t) t.array.length <;> simp

theorem outerProbe_true_ne_keyError {V : Type u} (s : DKT V) (k1 k2 : String) :
    (outerProbe s k1 k2 true).2 ≠ .error .keyError := by
  cases hp : probeFind s.array k1 (hash1 s k1) s.array.length with
  | vacant j =>
    rw [outerProbe_true_vacant_eq s k1 k2 j hp]
    cases hi : innerProbe (freshInner s.internal_sizes : LPT V) k2 true with
    | ok p2 => simp
    | error e =>
      have h2 := innerProbe_true_ne_keyError (freshInner s.internal_sizes : LPT V) k2
      rw [hi] at h2
      simpa using h2
  | found j =>
    rw [outerProbe_found_eq s k1 k2 true j hp]
    cases hs : slotAt s.array j with
    | none => simp
    | some p =>
      obtain ⟨a, t⟩ := p
      cases hi : innerProbe t k2 true with
      | ok p2 => simp [hi]
      | error e =>
        have h2 := innerProbe_true_ne_keyError t k2
        rw [hi] at h2
        simp only [hi]
        simpa using h2
  | exhausted =>
    rw [outerProbe_exhausted_eq s k1 k2 true hp]
    simp

theorem innerWalk_ne_keyError {V : Type u} :
    ∀ fuel (arr : List (Slot V)) pos, (innerWalk arr pos fuel).2 ≠ .error .keyError := by
  intro fuel
  induction fuel with
  | zero => intro arr pos; simp [innerWalk]
  | succ n ih =>
    intro arr pos
    rw [innerWalk]
    cases hs : slotAt arr pos with
    | none => simp
    | some p =>
      obtain ⟨k, v⟩ := p
      simp only []
      cases hp : probeFind (arr.set pos none) k (polyHash k (arr.set pos none).length)
          (arr.set pos none).length with
      | found j => simpa using ih _ _
      | vacant j => simpa using ih _ _
      | exhausted => simp

theorem outerWalk_ne_keyError {V : Type u} (k2 : String) :
    ∀ fuel (s : DKT V) pos, (outerWalk k2 s pos fuel).2 ≠ .error .keyError := by
  intro fuel
  induction fuel with
  | zero => intro s pos; simp [outerWalk]
  | succ n ih =>
    intro s pos
    rw [outerWalk]
    cases hs : slotAt s.array pos with
    | none => simp
    | some p =>
      obtain ⟨key1, t⟩ := p
      simp only []
      rcases hop : outerProbe { s with array := s.array.set pos none } key1 k2 true
        with ⟨s₂, r⟩
      cases r with
      | ok q =>
        obtain ⟨np, p2⟩ := q
        simpa using ih _ _
      | error e =>
        have h2 := outerProbe_true_ne_keyError { s with array := s.array.set pos none } key1 k2
        rw [hop] at h2
        simpa using h2

/-! ### Empty-slot accounting for single writes -/

theorem emptyCount_set_clear {β : Type u} (arr : List (Slot β)) (j : Nat) (q : String × β)
    (h : slotAt arr j = some q) :
    emptyCount (arr.set j none) = emptyCount arr + 1 := by
  have hj := lt_length_of_slot_some arr j q h
  have := emptyCount_set arr j none hj
  rw [h] at this
  simpa using this

theorem emptyCount_set_occupied {β : Type u} (arr : List (Slot β)) (j : Nat)
    (q x : String × β) (h : slotAt arr j = some q) :
    emptyCount (arr.set j (some x)) = emptyCount arr := by
  have hj := lt_length_of_slot_some arr j q h
  have := emptyCount_set arr j (some x) hj
  rw [h] at this
  simpa using this

theorem emptyCount_set_fill {β : Type u} (arr : List (Slot β)) (j : Nat) (x : String × β)
    (hj : j < arr.length) (h : slotAt arr j = none) :
    emptyCount (arr.set j (some x)) + 1 = emptyCount arr := by
  have := emptyCount_set arr j (some x) hj
  rw [h] at this
  simpa using this


theorem slot_of_keyAt_some {β : Type u} (arr : List (Slot β)) (j : Nat) (k : String)
    (h : keyAt arr j = some k) : ∃ v, slotAt arr j = some (k, v) := by
  rw [keyAt] at h
  cases hs : slotAt arr j with
  | none => rw [hs] at h; cases h
  | some p =>
    obtain ⟨k', v⟩ := p
    rw [hs] at h
    simp only [Option.map_some'] at h
    have hk : k' = k := Option.some.inj h
    subst hk
    exact ⟨v, rfl⟩

/-! ### Walk preservation lemmas -/

theorem innerWalk_preserves {V : Type u} (bad : String) :
    ∀ fuel (arr : List (Slot V)) pos,
      noKey arr bad → 0 < emptyCount arr →
      noKey (innerWalk arr pos fuel).1 bad ∧
      0 < emptyCount (innerWalk arr pos fuel).1 ∧
      (innerWalk arr pos fuel).1.length = arr.length := by
  intro fuel
  induction fuel with
  | zero => intro arr pos hk he; exact ⟨hk, he, rfl⟩
  | succ n ih =>
    intro arr pos hk he
    rw [innerWalk]
    cases hs : slotAt arr pos with
    | none => exact ⟨hk, he, rfl⟩
    | some p =>
      obtain ⟨k, v⟩ := p
      simp only []
      have hpos : pos < arr.length := lt_length_of_slot_some arr pos (k, v) hs
      have hkbad : k ≠ bad := fun hh => hk pos (by rw [keyAt, hs, hh]; rfl)
      have hk1 : noKey (arr.set pos none) bad := noKey_set_none arr pos bad hk
      have he1 : emptyCount (arr.set pos none) = emptyCount arr + 1 :=
        emptyCount_set_clear arr pos (k, v) hs
      have hlen1 : (arr.set pos none).length = arr.length := by simp
      have hstart : polyHash k (arr.set pos none).length < (arr.set pos none).length := by
        rw [hlen1]; exact polyHash_lt k arr.length (by omega)
      cases hp : probeFind (arr.set pos none) k (polyHash k (arr.set pos none).length)
          (arr.set pos none).length with
      | found j =>
        obtain ⟨hjlt, hkey⟩ :=
          probeFind_found_spec (arr.set pos none) k _ _ j hstart hp
        obtain ⟨w, hw⟩ := slot_of_keyAt_some _ j k hkey
        have hk2 : noKey ((arr.set pos none).set j (some (k, v))) bad :=
          noKey_set_some (arr.set pos none) j bad k v hkbad hk1
        have he2 : 0 < emptyCount ((arr.set pos none).set j (some (k, v))) := by
          rw [emptyCount_set_occupied _ j (k, w) (k, v) hw, he1]; omega
        obtain ⟨ia, ib, ic⟩ := ih _ _ hk2 he2
        exact ⟨ia, ib, by rw [ic]; simp⟩
      | vacant j =>
        obtain ⟨hjlt, hnone⟩ :=
          probeFind_vacant_spec (arr.set pos none) k _ _ j hstart hp
        have hk2 : noKey ((arr.set pos none).set j (some (k, v))) bad :=
          noKey_set_some (arr.set pos none) j bad k v hkbad hk1
        have he2 : 0 < emptyCount ((arr.set pos none).set j (some (k, v))) := by
          have := emptyCount_set_fill (arr.set pos none) j (k, v) hjlt hnone
          omega
        obtain ⟨ia, ib, ic⟩ := ih _ _ hk2 he2
        exact ⟨ia, ib, by rw [ic]; simp⟩
      | exhausted =>
        refine ⟨hk1, ?_, hlen1⟩
        show 0 < emptyCount (arr.set pos none)
        omega

theorem set_set_same {α : Type u} (l : List α) (i : Nat) (a b : α) :
    (l.set i a).set i b = l.set i b := by
  induction l generalizing i with
  | nil => rfl
  | cons x xs ih =>
    cases i with
    | zero => rfl
    | succ n => show x :: (xs.set n a).set n b = x :: xs.set n b; rw [ih]

theorem outerWalk_preserves {V : Type u} (k2 bad : String) :
    ∀ fuel (s : DKT V) pos,
      noKey s.array bad → 0 < emptyCount s.array →
      noKey (outerWalk k2 s pos fuel).1.array bad ∧
      0 < emptyCount (outerWalk k2 s pos fuel).1.array ∧
      (outerWalk k2 s pos fuel).1.array.length = s.array.length ∧
      (outerWalk k2 s pos fuel).1.count = s.count := by
  intro fuel
  induction fuel with
  | zero => intro s pos hk he; exact ⟨hk, he, rfl, rfl⟩
  | succ n ih =>
    intro s pos hk he
    rw [outerWalk]
    cases hs : slotAt s.array pos with
    | none => exact ⟨hk, he, rfl, rfl⟩
    | some p =>
      obtain ⟨key1, t⟩ := p
      simp only []
      have hpos : pos < s.array.length := lt_length_of_slot_some s.array pos (key1, t) hs
      have hkbad : key1 ≠ bad := fun hh => hk pos (by rw [keyAt, hs, hh]; rfl)
      set s₁ : DKT V := { s with array := s.array.set pos none } with hs₁def
      have hs₁arr : s₁.array = s.array.set pos none := by rw [hs₁def]
      have hk1 : noKey s₁.array bad := by
        rw [hs₁arr]; exact noKey_set_none s.array pos bad hk
      have he1 : emptyCount s₁.array = emptyCount s.array + 1 := by
        rw [hs₁arr]; exact emptyCount_set_clear s.array pos (key1, t) hs
      have hlen1 : s₁.array.length = s.array.length := by rw [hs₁arr]; simp
      have hstart : hash1 s₁ key1 < s₁.array.length := by
        show polyHash key1 s₁.array.length < s₁.array.length
        rw [hlen1]
        exact polyHash_lt key1 s.array.length (by omega)
      cases hp : probeFind s₁.array key1 (hash1 s₁ key1) s₁.array.length with
      | vacant j =>
        rw [outerProbe_true_vacant_eq s₁ key1 k2 j hp]
        obtain ⟨hjlt, hjnone⟩ := probeFind_vacant_spec s₁.array key1 _ _ j hstart hp
        cases hi : innerProbe (freshInner s₁.internal_sizes : LPT V) k2 true with
        | ok p2 =>
          simp only [hi]
          have hset2 : (s₁.array.set j (some (key1, freshInner s₁.internal_sizes))).set j
              (some (key1, t)) = s₁.array.set j (some (key1, t)) :=
            set_set_same s₁.array j _ _
          have hkB : noKey ((s₁.array.set j (some (key1, freshInner s₁.internal_sizes))).set j
              (some (key1, t))) bad := by
            rw [hset2]
            exact noKey_set_some s₁.array j bad key1 t hkbad hk1
          have heB : 0 < emptyCount ((s₁.array.set j
              (some (key1, freshInner s₁.internal_sizes))).set j (some (key1, t))) := by
            rw [hset2]
            have := emptyCount_set_fill s₁.array j (key1, t) hjlt hjnone
            omega
          obtain ⟨ia, ib, ic, id⟩ := ih { s₁ with array := (s₁.array.set j (some (key1, freshInner s₁.internal_sizes))).set j (some (key1, t)), table_count := s₁.table_count + 1 } ((pos + 1) % s.array.length) hkB heB
          refine ⟨ia, ib, ?_, id⟩
          rw [ic]
          show ((s₁.array.set j (some (key1, freshInner s₁.internal_sizes))).set j
              (some (key1, t))).length = s.array.length
          rw [hset2]
          simpa using hlen1
        | error e =>
          simp only [hi]
          refine ⟨?_, ?_, ?_, trivial⟩
          · show noKey (s₁.array.set j (some (key1, freshInner s₁.internal_sizes))) bad
            exact noKey_set_some s₁.array j bad key1 _ hkbad hk1
          · show 0 < emptyCount (s₁.array.set j (some (key1, freshInner s₁.internal_sizes)))
            have := emptyCount_set_fill s₁.array j
              (key1, freshInner s₁.internal_sizes) hjlt hjnone
            omega
          · show (s₁.array.set j (some (key1, freshInner s₁.internal_sizes))).length
              = s.array.length
            simpa using hlen1
      | found j =>
        rw [outerProbe_found_eq s₁ key1 k2 true j hp]
        obtain ⟨hjlt, hkey⟩ := probeFind_found_spec s₁.array key1 _ _ j hstart hp
        obtain ⟨t2, hw⟩ := slot_of_keyAt_some s₁.array j key1 hkey
        rw [hw]
        cases hi : innerProbe t2 k2 true with
        | ok p2 =>
          simp only [hi]
          have hk2 : noKey (s₁.array.set j (some (key1, t))) bad :=
            noKey_set_some s₁.array j bad key1 t hkbad hk1
          have he2 : 0 < emptyCount (s₁.array.set j (some (key1, t))) := by
            rw [emptyCount_set_occupied s₁.array j (key1, t2) (key1, t) hw, he1]
            omega
          obtain ⟨ia, ib, ic, id⟩ := ih
            { s₁ with array := s₁.array.set j (some (key1, t)) }
            ((pos + 1) % s.array.length) hk2 he2
          refine ⟨ia, ib, ?_, id⟩
          rw [ic]
          show (s₁.array.set j (some (key1, t))).length = s.array.length
          simpa using hlen1
        | error e =>
          simp only [hi]
          refine ⟨hk1, ?_, hlen1, trivial⟩
          show 0 < emptyCount s₁.array
          omega
      | exhausted =>
        rw [outerProbe_exhausted_eq s₁ key1 k2 true hp]
        refine ⟨hk1, ?_, hlen1, rfl⟩
        show 0 < emptyCount s₁.array
        omega

/-! ### Distinct keys and absent-key probing -/

/-- Distinct stored keys: two different slots never hold the same key. -/
def distinctKeys {β : Type u} (arr : List (Slot β)) : Prop :=
  ∀ i, i < arr.length → ∀ j, j < arr.length → i ≠ j →
    keyAt arr i = none ∨ keyAt arr i ≠ keyAt arr j

/-- Distinctness of stored keys is decidable. -/
instance distinctKeysDec {β : Type u} (arr : List (Slot β)) : Decidable (distinctKeys arr) := by
  unfold distinctKeys
  infer_instance

theorem key_unique {β : Type u} (arr : List (Slot β)) (k : String) (j : Nat)
    (hd : distinctKeys arr) (hj : keyAt arr j = some k) :
    ∀ i, keyAt arr i = some k → i = j := by
  intro i hi
  by_contra hne
  obtain ⟨v, hv⟩ := slot_of_keyAt_some arr i k hi
  obtain ⟨w, hw⟩ := slot_of_keyAt_some arr j k hj
  have hil := lt_length_of_slot_some arr i _ hv
  have hjl := lt_length_of_slot_some arr j _ hw
  rcases hd i hil j hjl hne with h | h
  · rw [hi] at h; cases h
  · rw [hi, hj] at h; exact h rfl

theorem probeFind_vacant_total {β : Type u} (arr : List (Slot β)) (k : String) (pos : Nat)
    (hk : noKey arr k) (he : 0 < emptyCount arr) (hpos : pos < arr.length) :
    ∃ j, probeFind arr k pos arr.length = .vacant j := by
  obtain ⟨e, hel, hee⟩ := exists_empty_of_pos arr he
  obtain ⟨d, hd, hde⟩ := cycle_reach arr.length pos e hpos hel
  exact probeFind_vacant_of_absent arr k arr.length pos hpos ⟨d, hd, hde ▸ hee⟩ hk

theorem innerProbe_false_keyError_of_absent {V : Type u} (t : LPT V) (k : String)
    (hk : noKey t.array k) (he : 0 < emptyCount t.array) :
    innerProbe t k false = .error .keyError := by
  have hlen : 0 < t.array.length := by
    obtain ⟨e, hel, _⟩ := exists_empty_of_pos t.array he
    omega
  obtain ⟨j, hva⟩ := probeFind_vacant_total t.array k (hash2 k t) hk he
    (polyHash_lt k t.array.length hlen)
  unfold innerProbe
  rw [hva]
  rfl

/-! ### Dissection of the non-inserting probe and of deletion -/

theorem innerProbe_false_ok_spec {V : Type u} (t : LPT V) (k : String) (j : Nat)
    (h : innerProbe t k false = .ok j) :
    probeFind t.array k (hash2 k t) t.array.length = .found j := by
  unfold innerProbe at h
  cases hp : probeFind t.array k (hash2 k t) t.array.length with
  | found j' =>
    rw [hp] at h
    simp only [] at h
    rw [Except.ok.inj h]
  | vacant j' => rw [hp] at h; simp at h
  | exhausted => rw [hp] at h; simp at h

theorem outerProbe_false_vacant_eq {V : Type u} (s : DKT V) (k1 k2 : String) (j : Nat)
    (h : probeFind s.array k1 (hash1 s k1) s.array.length = .vacant j) :
    outerProbe s k1 k2 false = (s, .error .keyError) := by
  unfold outerProbe
  rw [h]
  rfl

theorem outerProbe_false_ok_spec {V : Type u} (s : DKT V) (k1 k2 : String) (p1 p2 : Nat)
    (h : (outerProbe s k1 k2 false).2 = .ok (p1, p2)) :
    probeFind s.array k1 (hash1 s k1) s.array.length = .found p1 ∧
    ∃ t, slotAt s.array p1 = some (k1, t) ∧ innerProbe t k2 false = .ok p2 := by
  unfold outerProbe at h
  cases hp : probeFind s.array k1 (hash1 s k1) s.array.length with
  | vacant j => rw [hp] at h; simp at h
  | exhausted => rw [hp] at h; simp at h
  | found j =>
    rw [hp] at h
    simp only [] at h
    cases hs : slotAt s.array j with
    | none => rw [hs] at h; simp at h
    | some pr =>
      obtain ⟨a, t⟩ := pr
      rw [hs] at h
      simp only [] at h
      cases hi : innerProbe t k2 false with
      | error e => rw [hi] at h; simp at h
      | ok q =>
        rw [hi] at h
        simp only [] at h
        have h2 : (j, q) = (p1, p2) := Except.ok.inj h
        have hj : j = p1 := congrArg Prod.fst h2
        have hq : q = p2 := congrArg Prod.snd h2
        subst hj; subst hq
        have hjl := lt_length_of_slot_some s.array j _ hs
        have hstart : hash1 s k1 < s.array.length :=
          polyHash_lt k1 s.array.length (by omega)
        obtain ⟨_, hkey⟩ := probeFind_found_spec s.array k1 _ _ j hstart hp
        have hak : a = k1 := by
          rw [keyAt, hs] at hkey
          simpa using hkey
        subst hak
        exact ⟨rfl, t, hs, hi⟩

theorem contains_of_getItem_keyError {V : Type u} (s : DKT V) (k1 k2 : String)
    (h : getItem s k1 k2 = .error .keyError) : containsDKT s k1 k2 = .ok false := by
  unfold containsDKT
  rw [h]

theorem getItem_keyError_of_vacant {V : Type u} (s : DKT V) (k1 k2 : String) (j : Nat)
    (h : probeFind s.array k1 (hash1 s k1) s.array.length = .vacant j) :
    getItem s k1 k2 = .error .keyError := by
  unfold getItem
  rw [outerProbe_false_vacant_eq s k1 k2 j h]

theorem getItem_keyError_of_inner {V : Type u} (s : DKT V) (k1 k2 : String) (j : Nat)
    (a : String) (t : LPT V)
    (hf : probeFind s.array k1 (hash1 s k1) s.array.length = .found j)
    (hs : slotAt s.array j = some (a, t))
    (hi : innerProbe t k2 false = .error .keyError) :
    getItem s k1 k2 = .error .keyError := by
  have h2 : (outerProbe s k1 k2 false).2 = .error .keyError := by
    rw [outerProbe_found_eq s k1 k2 false j hf, hs]
    simp only []
    rw [hi]
  unfold getItem
  rw [h2]

theorem innerDel_ok_spec {V : Type u} (t : LPT V) (k : String)
    (hd : distinctKeys t.array) (j : Nat) (hip : innerProbe t k false = .ok j) :
    noKey (innerDel t k).1.array k ∧ 0 < emptyCount (innerDel t k).1.array ∧
    (innerDel t k).1.array.length = t.array.length ∧
    (innerDel t k).1.count = t.count - 1 := by
  have hpf := innerProbe_false_ok_spec t k j hip
  have hlen : 0 < t.array.length := by
    rcases Nat.eq_zero_or_pos t.array.length with h0 | h0
    · rw [h0] at hpf; simp [probeFind] at hpf
    · exact h0
  obtain ⟨hjl, hkey⟩ := probeFind_found_spec t.array k _ _ j
    (polyHash_lt k t.array.length hlen) hpf
  obtain ⟨w, hw⟩ := slot_of_keyAt_some t.array j k hkey
  have huniq := key_unique t.array k j hd hkey
  have hnk : noKey (t.array.set j none) k := by
    intro i
    by_cases hij : j = i
    · subst hij
      rw [keyAt, slotAt_set_self t.array j none hjl]
      intro hh; cases hh
    · rw [keyAt_set_ne t.array j i none hij]
      intro hh
      exact hij ((huniq i hh).symm)
  have hec : 0 < emptyCount (t.array.set j none) := by
    rw [emptyCount_set_clear t.array j (k, w) hw]; omega
  unfold innerDel
  rw [hip]
  simp only []
  obtain ⟨ia, ib, ic⟩ := innerWalk_preserves k _ (t.array.set j none)
    ((j + 1) % t.array.length) hnk hec
  refine ⟨ia, ib, ?_, trivial⟩
  rw [ic]
  simp

/-! ### Claim C5: deletion completeness -/

/-- The inner array bound at outer slot `i` (empty when the slot is empty);
used to state per-inner-table hypotheses decidably. -/
def innerArrayAt {V : Type u} (arr : List (Slot (LPT V))) (i : Nat) : List (Slot V) :=
  match slotAt arr i with
  | some (_, t) => t.array
  | none => []

/-- C5: on any table whose outer and inner arrays store no duplicate keys,
a successful `delete(k1,k2)` leaves a table on which `contains((k1,k2))`
returns `false` (not an error) and `len()` has decreased by exactly 1. -/
theorem c5_delete_completeness {V : Type u} (s : DKT V) (k1 k2 : String)
    (hdist : distinctKeys s.array)
    (hinner : ∀ i, i < s.array.length → distinctKeys (innerArrayAt s.array i))
    (hdel : (delItem s k1 k2).2 = .ok ()) :
    containsDKT (delItem s k1 k2).1 k1 k2 = .ok false ∧
    lenDKT (delItem s k1 k2).1 = lenDKT s - 1 := by
  rcases hop : outerProbe s k1 k2 false with ⟨s₀, r⟩
  have hfst := outerProbe_false_fst s k1 k2
  rw [hop] at hfst
  simp only [] at hfst
  rw [hfst] at hop
  clear hfst
  cases r with
  | error e =>
    unfold delItem at hdel
    rw [hop] at hdel
    simp at hdel
  | ok q =>
    obtain ⟨p1, p2⟩ := q
    obtain ⟨hfound, t, hslot, hipok⟩ :=
      outerProbe_false_ok_spec s k1 k2 p1 p2 (by rw [hop])
    have hp1l := lt_length_of_slot_some s.array p1 _ hslot
    have hdt : distinctKeys t.array := by
      have h1 := hinner p1 hp1l
      unfold innerArrayAt at h1
      rw [hslot] at h1
      exact h1
    obtain ⟨hnk2, hec2, hlen2, hcnt2⟩ := innerDel_ok_spec t k2 hdt p2 hipok
    unfold delItem at hdel ⊢
    rw [hop] at hdel ⊢
    simp only [] at hdel ⊢
    rw [hslot] at hdel ⊢
    simp only [] at hdel ⊢
    rcases hrd : innerDel t k2 with ⟨t', rr⟩
    rw [hrd] at hdel hnk2 hec2 hlen2 hcnt2
    simp only [] at hdel hnk2 hec2 hlen2 hcnt2 ⊢
    cases rr with
    | error e => simp at hdel
    | ok u =>
      have hkey1 : keyAt s.array p1 = some k1 := by rw [keyAt, hslot]; rfl
      by_cases hc : t'.count = 0
      · -- the inner table emptied: the outer slot is cleared and repaired
        rw [if_pos hc] at hdel ⊢
        have harr2 : (s.array.set p1 (some (k1, t'))).set p1 none = s.array.set p1 none :=
          set_set_same s.array p1 _ _
        have huniq := key_unique s.array k1 p1 hdist hkey1
        have hnk1 : noKey ((s.array.set p1 (some (k1, t'))).set p1 none) k1 := by
          rw [harr2]
          intro i
          by_cases hip : p1 = i
          · subst hip
            rw [keyAt, slotAt_set_self s.array p1 none hp1l]
            intro hh; cases hh
          · rw [keyAt_set_ne s.array p1 i none hip]
            intro hh
            exact hip ((huniq i hh).symm)
        have hecB : 0 < emptyCount ((s.array.set p1 (some (k1, t'))).set p1 none) := by
          rw [harr2, emptyCount_set_clear s.array p1 (k1, t) hslot]
          omega
        obtain ⟨wa, wb, wc, wd⟩ := outerWalk_preserves k2 k1 ((s.array.set p1 (some (k1, t'))).set p1 none).length { s with array := (s.array.set p1 (some (k1, t'))).set p1 none, count := s.count - 1, table_count := s.table_count - 1 } ((p1 + 1) % ((s.array.set p1 (some (k1, t'))).set p1 none).length) hnk1 hecB
        have hWlen : 0 < (outerWalk k2 { s with array := (s.array.set p1 (some (k1, t'))).set p1 none, count := s.count - 1, table_count := s.table_count - 1 } ((p1 + 1) % ((s.array.set p1 (some (k1, t'))).set p1 none).length) ((s.array.set p1 (some (k1, t'))).set p1 none).length).1.array.length := by
          obtain ⟨e2, hel2, _⟩ := exists_empty_of_pos _ wb
          omega
        obtain ⟨jv, hvac⟩ := probeFind_vacant_total _ k1 _ wa wb
          (polyHash_lt k1 _ hWlen)
        constructor
        · exact contains_of_getItem_keyError _ k1 k2
            (getItem_keyError_of_vacant _ k1 k2 jv hvac)
        · exact wd
      · -- the inner table kept entries: only the inner table changed
        rw [if_neg hc] at hdel ⊢
        have hlenA : (s.array.set p1 (some (k1, t'))).length = s.array.length := by simp
        have hkeys : ∀ i, keyAt (s.array.set p1 (some (k1, t'))) i = keyAt s.array i := by
          intro i
          by_cases hip : p1 = i
          · subst hip
            rw [keyAt_set_self s.array p1 _ hp1l, hkey1]
            rfl
          · rw [keyAt_set_ne s.array p1 i _ hip]
        have hfound2 : probeFind (s.array.set p1 (some (k1, t'))) k1
            (polyHash k1 (s.array.set p1 (some (k1, t'))).length)
            (s.array.set p1 (some (k1, t'))).length = .found p1 := by
          rw [probeFind_congr_keys (s.array.set p1 (some (k1, t'))) s.array k1 hlenA hkeys,
              hlenA]
          exact hfound
        have hslotA : slotAt (s.array.set p1 (some (k1, t'))) p1 = some (k1, t') :=
          slotAt_set_self s.array p1 _ hp1l
        have hinner2 : innerProbe t' k2 false = .error .keyError :=
          innerProbe_false_keyError_of_absent t' k2 hnk2 hec2
        constructor
        · exact contains_of_getItem_keyError _ k1 k2
            (getItem_keyError_of_inner _ k1 k2 p1 k1 t' hfound2 hslotA hinner2)
        · rfl

/-- Witness for C5 on the colliding-cluster scenario: deleting the middle
cluster entry empties its inner table and runs the outer repair walk. -/
theorem c5_delete_completeness_witness :
    (distinctKeys exU3.array ∧
     (∀ i, i < exU3.array.length → distinctKeys (innerArrayAt exU3.array i)) ∧
     (delItem exU3 "e" "kb").2 = .ok ()) ∧
    containsDKT (delItem exU3 "e" "kb").1 "e" "kb" = .ok false ∧
    lenDKT (delItem exU3 "e" "kb").1 = lenDKT exU3 - 1 :=
  ⟨⟨by decide, by decide, by decide⟩,
   c5_delete_completeness exU3 "e" "kb" (by decide) (by decide) (by decide)⟩

/-! ### Well-formedness (operational invariant I3) and presence, for C6 -/

/-- One slot's findability: an occupied slot's key probes back to that slot. -/
def probeHitsB {β : Type u} (arr : List (Slot β)) (i : Nat) : Bool :=
  match slotAt arr i with
  | none => true
  | some (k, _) => decide (probeFind arr k (polyHash k arr.length) arr.length = .found i)

/-- Findability of every stored key (operational form of invariant I3). -/
def findableB {β : Type u} (arr : List (Slot β)) : Bool :=
  (List.range arr.length).all (fun i => probeHitsB arr i)

/-- Well-formedness of one outer slot: its inner table's keys are findable
and the inner table keeps at least one empty slot. -/
def wfSlotB {V : Type u} (sl : Slot (LPT V)) : Bool :=
  match sl with
  | none => true
  | some (_, t) => findableB t.array && decide (0 < emptyCount t.array)

/-- Well-formedness used to settle C6: outer keys findable and every bound
inner table findable with spare capacity. -/
def WfDKT {V : Type u} (s : DKT V) : Prop :=
  findableB s.array = true ∧ s.array.all wfSlotB = true

/-- Well-formedness is decidable. -/
instance wfDKTDec {V : Type u} (s : DKT V) : Decidable (WfDKT s) := by
  unfold WfDKT
  infer_instance

/-- Whether a slot is occupied is decidable without comparing payloads. -/
instance slotNeNoneDec {β : Type u} (arr : List (Slot β)) (i : Nat) :
    Decidable (slotAt arr i ≠ none) :=
  decidable_of_iff ((slotAt arr i).isSome = true) Option.isSome_iff_ne_none

/-- The compound key `(k1,k2)` is stored in the structure: some outer slot
holds `k1` and its inner table holds `k2`. -/
def presentPair {V : Type u} (s : DKT V) (k1 k2 : String) : Prop :=
  ∃ i, i < s.array.length ∧ keyAt s.array i = some k1 ∧
    ∃ j, j < (innerArrayAt s.array i).length ∧ keyAt (innerArrayAt s.array i) j = some k2

/-- Presence of a compound key is decidable. -/
instance presentPairDec {V : Type u} (s : DKT V) (k1 k2 : String) :
    Decidable (presentPair s k1 k2) := by
  unfold presentPair
  infer_instance

theorem findableB_spec {β : Type u} (arr : List (Slot β)) (h : findableB arr = true)
    (i : Nat) (k : String) (v : β) (hi : i < arr.length) (hs : slotAt arr i = some (k, v)) :
    probeFind arr k (polyHash k arr.length) arr.length = .found i := by
  have h2 := List.all_eq_true.mp h i (List.mem_range.mpr hi)
  unfold probeHitsB at h2
  rw [hs] at h2
  exact of_decide_eq_true h2

theorem wfSlot_spec {V : Type u} (s : DKT V) (h : s.array.all wfSlotB = true)
    (i : Nat) (k : String) (t : LPT V) (hi : i < s.array.length)
    (hs : slotAt s.array i = some (k, t)) :
    findableB t.array = true ∧ 0 < emptyCount t.array := by
  have hmem : slotAt s.array i ∈ s.array := slotAt_mem s.array i hi
  rw [hs] at hmem
  have h2 := List.all_eq_true.mp h _ hmem
  unfold wfSlotB at h2
  simp only [Bool.and_eq_true] at h2
  exact ⟨h2.1, of_decide_eq_true h2.2⟩

/-! ### Pair-level probe equations and presence lemmas -/

theorem outerProbe_false_inner_err {V : Type u} (s : DKT V) (k1 k2 : String) (j : Nat)
    (a : String) (t : LPT V) (e : Err)
    (hf : probeFind s.array k1 (hash1 s k1) s.array.length = .found j)
    (hs : slotAt s.array j = some (a, t))
    (hi : innerProbe t k2 false = .error e) :
    outerProbe s k1 k2 false = (s, .error e) := by
  rw [outerProbe_found_eq s k1 k2 false j hf, hs]
  simp only []
  rw [hi]

theorem outerProbe_false_inner_ok {V : Type u} (s : DKT V) (k1 k2 : String) (j p2 : Nat)
    (a : String) (t : LPT V)
    (hf : probeFind s.array k1 (hash1 s k1) s.array.length = .found j)
    (hs : slotAt s.array j = some (a, t))
    (hi : innerProbe t k2 false = .ok p2) :
    outerProbe s k1 k2 false = (s, .ok (j, p2)) := by
  rw [outerProbe_found_eq s k1 k2 false j hf, hs]
  simp only []
  rw [hi]

theorem getItem_ok_of_present {V : Type u} (s : DKT V) (k1 k2 : String)
    (hwf : WfDKT s) (hp : presentPair s k1 k2) : ∃ v, getItem s k1 k2 = .ok v := by
  obtain ⟨hfind, hslots⟩ := hwf
  obtain ⟨i, hi, hki, j, hj, hkj⟩ := hp
  obtain ⟨t, hslot⟩ := slot_of_keyAt_some s.array i k1 hki
  have hiaa : innerArrayAt s.array i = t.array := by
    unfold innerArrayAt; rw [hslot]
  rw [hiaa] at hj hkj
  obtain ⟨v, hvslot⟩ := slot_of_keyAt_some t.array j k2 hkj
  have hf := findableB_spec s.array hfind i k1 t hi hslot
  obtain ⟨hft, hecT⟩ := wfSlot_spec s hslots i k1 t hi hslot
  have hfin := findableB_spec t.array hft j k2 v hj hvslot
  have hip : innerProbe t k2 false = .ok j := by
    unfold innerProbe
    rw [show hash2 k2 t = polyHash k2 t.array.length from rfl, hfin]
  have houter := outerProbe_false_inner_ok s k1 k2 i j k1 t hf hslot hip
  refine ⟨v, ?_⟩
  unfold getItem
  rw [houter]
  simp only []
  rw [hslot]
  simp only []
  rw [hvslot]

theorem getItem_keyError_absent {V : Type u} (s : DKT V) (k1 k2 : String)
    (hwf : WfDKT s) (he : 0 < emptyCount s.array) (hnp : ¬ presentPair s k1 k2) :
    getItem s k1 k2 = .error .keyError := by
  obtain ⟨hfind, hslots⟩ := hwf
  have hlen : 0 < s.array.length := by
    obtain ⟨e, hel, _⟩ := exists_empty_of_pos s.array he
    omega
  by_cases hk1 : ∃ i, i < s.array.length ∧ keyAt s.array i = some k1
  · obtain ⟨i, hi, hki⟩ := hk1
    obtain ⟨t, hslot⟩ := slot_of_keyAt_some s.array i k1 hki
    have hiaa : innerArrayAt s.array i = t.array := by
      unfold innerArrayAt; rw [hslot]
    have hf := findableB_spec s.array hfind i k1 t hi hslot
    obtain ⟨hft, hecT⟩ := wfSlot_spec s hslots i k1 t hi hslot
    have hnkt : noKey t.array k2 := by
      intro j hkj
      apply hnp
      obtain ⟨w, hw⟩ := slot_of_keyAt_some t.array j k2 hkj
      have hjl := lt_length_of_slot_some t.array j _ hw
      exact ⟨i, hi, hki, j, by rw [hiaa]; exact hjl, by rw [hiaa]; exact hkj⟩
    have hina := innerProbe_false_keyError_of_absent t k2 hnkt hecT
    exact getItem_keyError_of_inner s k1 k2 i k1 t hf hslot hina
  · push_neg at hk1
    have hnk : noKey s.array k1 := by
      intro i
      by_cases hil : i < s.array.length
      · exact hk1 i hil
      · rw [keyAt_ge_length s.array i (by omega)]
        simp
    obtain ⟨jv, hvac⟩ := probeFind_vacant_total s.array k1 (hash1 s k1) hnk he
      (polyHash_lt k1 s.array.length hlen)
    exact getItem_keyError_of_vacant s k1 k2 jv hvac

theorem probe_keyError_of_getItem {V : Type u} (s : DKT V) (k1 k2 : String)
    (h : getItem s k1 k2 = .error .keyError) :
    (outerProbe s k1 k2 false).2 = .error .keyError := by
  unfold getItem at h
  cases hq : (outerProbe s k1 k2 false).2 with
  | error e =>
    rw [hq] at h
    simp only [] at h
    rw [Except.error.inj h]
  | ok q =>
    obtain ⟨p1, p2⟩ := q
    rw [hq] at h
    simp only [] at h
    cases hs : slotAt s.array p1 with
    | none => rw [hs] at h; simp at h
    | some pr =>
      obtain ⟨a, t⟩ := pr
      rw [hs] at h
      simp only [] at h
      cases hv : slotAt t.array p2 with
      | none => rw [hv] at h; simp at h
      | some pv => rw [hv] at h; simp at h

theorem delItem_of_probe_error {V : Type u} (s : DKT V) (k1 k2 : String) (e : Err)
    (h : (outerProbe s k1 k2 false).2 = .error e) :
    delItem s k1 k2 = (s, .error e) := by
  have hfst := outerProbe_false_fst s k1 k2
  have hp : outerProbe s k1 k2 false = (s, Except.error e) := by
    rcases hq : outerProbe s k1 k2 false with ⟨s₀, r⟩
    rw [hq] at hfst h
    simp only [] at hfst h
    rw [hfst, h]
  unfold delItem
  rw [hp]

theorem innerDel_snd_ne_keyError {V : Type u} (t : LPT V) (k : String) (j : Nat)
    (hip : innerProbe t k false = .ok j) : (innerDel t k).2 ≠ .error .keyError := by
  unfold innerDel
  rw [hip]
  simp only []
  exact innerWalk_ne_keyError _ _ _

theorem delItem_ne_keyError_of_present {V : Type u} (s : DKT V) (k1 k2 : String)
    (hwf : WfDKT s) (hp : presentPair s k1 k2) :
    (delItem s k1 k2).2 ≠ .error .keyError := by
  obtain ⟨hfind, hslots⟩ := hwf
  obtain ⟨i, hi, hki, j, hj, hkj⟩ := hp
  obtain ⟨t, hslot⟩ := slot_of_keyAt_some s.array i k1 hki
  have hiaa : innerArrayAt s.array i = t.array := by
    unfold innerArrayAt; rw [hslot]
  rw [hiaa] at hj hkj
  obtain ⟨v, hvslot⟩ := slot_of_keyAt_some t.array j k2 hkj
  have hf := findableB_spec s.array hfind i k1 t hi hslot
  obtain ⟨hft, hecT⟩ := wfSlot_spec s hslots i k1 t hi hslot
  have hfin := findableB_spec t.array hft j k2 v hj hvslot
  have hip : innerProbe t k2 false = .ok j := by
    unfold innerProbe
    rw [show hash2 k2 t = polyHash k2 t.array.length from rfl, hfin]
  have houter := outerProbe_false_inner_ok s k1 k2 i j k1 t hf hslot hip
  unfold delItem
  rw [houter]
  simp only []
  rw [hslot]
  simp only []
  rcases hrd : innerDel t k2 with ⟨t', rr⟩
  simp only []
  cases rr with
  | error e =>
    have h2 := innerDel_snd_ne_keyError t k2 j hip
    rw [hrd] at h2
    simpa using h2
  | ok u =>
    by_cases hc : t'.count = 0
    · rw [if_pos hc]
      exact outerWalk_ne_keyError k2 _ _ _
    · rw [if_neg hc]
      simp

/-- C6: on a well-formed table, `get` and `delete` raise KeyError exactly
when the compound key is absent (given spare outer capacity, the normal
operating regime); when an insertion's scan runs over a completely full
outer table that lacks the first key, the distinct FullError is raised
instead — and a lookup on such a full table also reports FullError, not
plain not-found; the two error kinds are distinct values. -/
theorem c6_error_kinds {V : Type u} (s : DKT V) (k1 k2 : String) (hwf : WfDKT s) :
    (0 < emptyCount s.array →
      ((getItem s k1 k2 = .error .keyError) ↔ ¬ presentPair s k1 k2)) ∧
    (0 < emptyCount s.array →
      (((delItem s k1 k2).2 = .error .keyError) ↔ ¬ presentPair s k1 k2)) ∧
    (0 < s.array.length → (∀ i, i < s.array.length → slotAt s.array i ≠ none) →
      noKey s.array k1 →
      (outerProbe s k1 k2 true).2 = .error .fullError ∧
      getItem s k1 k2 = .error .fullError) ∧
    Err.keyError ≠ Err.fullError := by
  refine ⟨?_, ?_, ?_, by simp⟩
  · intro he
    constructor
    · intro hkey hp
      obtain ⟨v, hv⟩ := getItem_ok_of_present s k1 k2 hwf hp
      rw [hv] at hkey
      cases hkey
    · exact getItem_keyError_absent s k1 k2 hwf he
  · intro he
    constructor
    · intro hkey hp
      exact delItem_ne_keyError_of_present s k1 k2 hwf hp hkey
    · intro hnp
      have hg := getItem_keyError_absent s k1 k2 hwf he hnp
      have hpk := probe_keyError_of_getItem s k1 k2 hg
      rw [delItem_of_probe_error s k1 k2 Err.keyError hpk]
  · intro hlen hfull hnk
    have hex := probeFind_exhausted_of_full s.array k1 s.array.length (hash1 s k1)
      (polyHash_lt k1 s.array.length hlen) hfull hnk
    constructor
    · rw [outerProbe_exhausted_eq s k1 k2 true hex]
    · unfold getItem
      rw [show (outerProbe s k1 k2 false).2 = .error .fullError from
        by rw [outerProbe_exhausted_eq s k1 k2 false hex]]

/-- Witness for C6, exercising both regimes: the two-entry table `exB2`
(spare capacity, key absent) and the completely full one-slot table
`exF1`. -/
theorem c6_error_kinds_witness :
    (WfDKT exB2 ∧ 0 < emptyCount exB2.array ∧ ¬ presentPair exB2 "zz" "x" ∧
     getItem exB2 "zz" "x" = .error .keyError ∧
     (delItem exB2 "zz" "x").2 = .error .keyError) ∧
    (WfDKT exF1 ∧ 0 < exF1.array.length ∧
     (∀ i, i < exF1.array.length → slotAt exF1.array i ≠ none) ∧
     noKey exF1.array "q" ∧
     (outerProbe exF1 "q" "y" true).2 = .error .fullError ∧
     getItem exF1 "q" "y" = .error .fullError) := by
  have hL : exF1.array.length = 1 := by decide
  have hnk : noKey exF1.array "q" := by
    intro i
    cases i with
    | zero => decide
    | succ n =>
      rw [keyAt_ge_length exF1.array (n + 1) (by omega)]
      simp
  constructor
  · refine ⟨by decide, by decide, by decide, ?_, ?_⟩
    · exact ((c6_error_kinds exB2 "zz" "x" (by decide)).1 (by decide)).mpr (by decide)
    · exact ((c6_error_kinds exB2 "zz" "x" (by decide)).2.1 (by decide)).mpr (by decide)
  · refine ⟨by decide, by decide, by decide, hnk, ?_⟩
    exact (c6_error_kinds exF1 "q" "y" (by decide)).2.2.1 (by decide) (by decide) hnk

/-! ### Claim C4: machinery for one-cluster scenarios (all outer keys share
one hash value).  Positions are written `(h + o) % n` for an offset `o`. -/

theorem shift_mod_inj (n h o m : Nat) (ho : o < n) (hm : m < n)
    (he : (h + o) % n = (h + m) % n) : o = m := by
  have h1 : (h + o) ≡ (h + m) [MOD n] := he
  have h2 : o ≡ m [MOD n] := Nat.ModEq.add_left_cancel' h h1
  have h3 : o % n = m % n := h2
  rwa [Nat.mod_eq_of_lt ho, Nat.mod_eq_of_lt hm] at h3

theorem slotAt_replicate {β : Type u} (c pos : Nat) :
    slotAt (List.replicate c (none : Slot β)) pos = none := by
  induction c generalizing pos with
  | zero => exact slotAt_nil pos
  | succ m ih =>
    cases pos with
    | zero => rfl
    | succ q => exact ih q

theorem probeFind_replicate {β : Type u} (c : Nat) (k : String) (pos fuel : Nat)
    (hf : 0 < fuel) :
    probeFind (List.replicate c (none : Slot β)) k pos fuel = .vacant pos := by
  cases fuel with
  | zero => omega
  | succ m => rw [probeFind, slotAt_replicate]

theorem set_none_replicate {β : Type u} (c p : Nat) :
    (List.replicate c (none : Slot β)).set p none = List.replicate c none := by
  induction c generalizing p with
  | zero => rfl
  | succ m ih =>
    cases p with
    | zero => rfl
    | succ q =>
      show (none : Slot β) :: (List.replicate m none).set q none = _
      rw [ih q]
      rfl

theorem innerWalk_replicate {V : Type u} (c pos fuel : Nat) (hf : 0 < fuel) :
    innerWalk (List.replicate c (none : Slot V)) pos fuel
      = (List.replicate c none, .ok ()) := by
  cases fuel with
  | zero => omega
  | succ m => rw [innerWalk, slotAt_replicate]

/-- The singleton inner table `LinearProbeTable(isz)` holds after inserting
its first entry: one occupied slot at the second key's hash. -/
def mkInner {V : Type u} (isz : List Nat) (k2 : String) (v : V) : LPT V :=
  { array := (List.replicate (isz.headD 0) none).set (polyHash k2 (isz.headD 0)) (some (k2, v))
    count := 1
    size_index := 0
    sizes := isz }

theorem innerProbe_fresh {V : Type u} (isz : List Nat) (k : String)
    (hc : 0 < isz.headD 0) :
    innerProbe (freshInner isz : LPT V) k true = .ok (polyHash k (isz.headD 0)) := by
  unfold innerProbe freshInner hash2
  simp only [List.length_replicate]
  rw [probeFind_replicate _ _ _ _ hc]
  rfl

theorem innerSet_fresh {V : Type u} (isz : List Nat) (k2 : String) (v : V)
    (hc3 : 2 < isz.headD 0) :
    innerSet (freshInner isz : LPT V) k2 v = (mkInner isz k2 v, .ok ()) := by
  unfold innerSet
  rw [innerProbe_fresh isz k2 (by omega)]
  simp only [freshInner, slotAt_replicate]
  rw [if_neg]
  · rfl
  · simp only [List.length_set, List.length_replicate]
    intro hgt
    omega

theorem mkInner_probe {V : Type u} (isz : List Nat) (k2 : String) (v : V)
    (hc3 : 2 < isz.headD 0) :
    innerProbe (mkInner isz k2 v) k2 false = .ok (polyHash k2 (isz.headD 0)) ∧
    slotAt (mkInner isz k2 v).array (polyHash k2 (isz.headD 0)) = some (k2, v) := by
  have hplt : polyHash k2 (isz.headD 0) < isz.headD 0 :=
    polyHash_lt k2 (isz.headD 0) (by omega)
  have hslot : slotAt (mkInner isz k2 v).array (polyHash k2 (isz.headD 0)) = some (k2, v) := by
    unfold mkInner
    exact slotAt_set_self _ _ _ (by simpa using hplt)
  refine ⟨?_, hslot⟩
  unfold innerProbe
  have hlen : (mkInner isz k2 v).array.length = isz.headD 0 := by
    unfold mkInner
    simp
  have hstart : hash2 k2 (mkInner isz k2 v) = polyHash k2 (isz.headD 0) := by
    unfold hash2
    rw [hlen]
  rw [hstart, hlen]
  have hfuel : isz.headD 0 = (isz.headD 0 - 1) + 1 := by omega
  rw [hfuel, probeFind, ← hfuel, hslot]
  simp

theorem mkInner_del {V : Type u} (isz : List Nat) (k2 : String) (v : V)
    (hc3 : 2 < isz.headD 0) :
    innerDel (mkInner isz k2 v) k2
      = ({ array := List.replicate (isz.headD 0) none, count := 0,
           size_index := 0, sizes := isz }, .ok ()) := by
  obtain ⟨hip, hslot⟩ := mkInner_probe isz k2 v hc3
  unfold innerDel
  rw [hip]
  simp only []
  have harr : (mkInner isz k2 v).array.set (polyHash k2 (isz.headD 0)) none
      = List.replicate (isz.headD 0) none := by
    unfold mkInner
    rw [set_set_same, set_none_replicate]
  rw [harr]
  have hlen : (mkInner isz k2 v).array.length = isz.headD 0 := by
    unfold mkInner
    simp
  rw [hlen, innerWalk_replicate _ _ _ (by omega)]
  rfl

/-- Scanning from offset `d`, skipping `r` occupied slots whose keys differ
from `k`, the probe stops at the first empty slot, at offset `d + r`. -/
theorem probeFind_skip {β : Type u} (arr : List (Slot β)) (k : String) (n h : Nat)
    (hlen : arr.length = n) :
    ∀ r d fuel, r < fuel → d + r < n →
      (∀ o, d ≤ o → o < d + r → ∃ k' v', slotAt arr ((h + o) % n) = some (k', v') ∧ k' ≠ k) →
      slotAt arr ((h + (d + r)) % n) = none →
      probeFind arr k ((h + d) % n) fuel = .vacant ((h + (d + r)) % n) := by
  intro r
  induction r with
  | zero =>
    intro d fuel hf _hn _hocc hvac
    cases fuel with
    | zero => omega
    | succ m =>
      rw [probeFind]
      rw [show d + 0 = d from rfl] at hvac
      rw [hvac]
      rfl
  | succ r ih =>
    intro d fuel hf hn hocc hvac
    cases fuel with
    | zero => omega
    | succ m =>
      rw [probeFind]
      obtain ⟨k', v', hq, hqk⟩ := hocc d (le_refl d) (by omega)
      rw [hq]
      simp only []
      rw [if_neg hqk, hlen, Nat.mod_add_mod]
      have ha : h + d + 1 = h + (d + 1) := by omega
      have hb : d + (r + 1) = (d + 1) + r := by omega
      rw [ha, hb]
      rw [hb] at hvac
      exact ih (d + 1) m (by omega) (by omega)
        (fun o ho1 ho2 => hocc o (by omega) (by omega)) hvac

/-- Scanning from offset `d`, skipping `r` occupied slots whose keys differ
from `k`, the probe finds `k` stored at offset `d + r`. -/
theorem probeFind_skip_found {β : Type u} (arr : List (Slot β)) (k : String) (n h : Nat)
    (hlen : arr.length = n) :
    ∀ r d fuel, r < fuel → d + r < n →
      (∀ o, d ≤ o → o < d + r → ∃ k' v', slotAt arr ((h + o) % n) = some (k', v') ∧ k' ≠ k) →
      (∃ v, slotAt arr ((h + (d + r)) % n) = some (k, v)) →
      probeFind arr k ((h + d) % n) fuel = .found ((h + (d + r)) % n) := by
  intro r
  induction r with
  | zero =>
    intro d fuel hf _hn _hocc hfound
    obtain ⟨v, hv⟩ := hfound
    cases fuel with
    | zero => omega
    | succ m =>
      rw [probeFind]
      rw [show d + 0 = d from rfl] at hv
      rw [hv]
      simp
  | succ r ih =>
    intro d fuel hf hn hocc hfound
    cases fuel with
    | zero => omega
    | succ m =>
      rw [probeFind]
      obtain ⟨k', v', hq, hqk⟩ := hocc d (le_refl d) (by omega)
      rw [hq]
      simp only []
      rw [if_neg hqk, hlen, Nat.mod_add_mod]
      have ha : h + d + 1 = h + (d + 1) := by omega
      have hb : d + (r + 1) = (d + 1) + r := by omega
      rw [ha, hb]
      rw [hb] at hfound
      exact ih (d + 1) m (by omega) (by omega)
        (fun o ho1 ho2 => hocc o (by omega) (by omega)) hfound

/-- Shape of the table after inserting `m` same-hash outer keys into a fresh
table with outer sizes `[n]`: entry `o` (given by `ent o`) occupies offset
`o` from the shared hash `h` as a singleton inner table; all other slots are
empty. -/
def ClusterShape {V : Type u} (n h : Nat) (isz : List Nat)
    (ent : Nat → String × String × V) (m : Nat) (s : DKT V) : Prop :=
  s.array.length = n ∧ s.sizes = [n] ∧ s.internal_sizes = isz ∧ s.size_index = 0 ∧
  s.table_count = (m : Int) ∧ s.count = (m : Int) ∧
  (∀ o, o < m → slotAt s.array ((h + o) % n)
      = some ((ent o).1, mkInner isz (ent o).2.1 (ent o).2.2)) ∧
  (∀ q, q < n → (∀ o, o < m → q ≠ (h + o) % n) → slotAt s.array q = none)

theorem clusterShape_init {V : Type u} (n h : Nat) (isz : List Nat)
    (ent : Nat → String × String × V) :
    ClusterShape n h isz ent 0 (initDKT (some [n]) (some isz) : DKT V) := by
  refine ⟨by simp [initDKT], rfl, rfl, rfl, rfl, rfl, ?_, ?_⟩
  · intro o ho; omega
  · intro q _ _
    show slotAt (List.replicate (([n] : List Nat).headD 0) none) q = none
    exact slotAt_replicate _ q

theorem setItem_cluster_step {V : Type u} (n h : Nat) (isz : List Nat)
    (ent : Nat → String × String × V) (m : Nat) (s : DKT V)
    (k1 k2 : String) (v : V)
    (hh : h < n) (hc3 : 2 < isz.headD 0)
    (hload : 2 * (m + 1) ≤ n)
    (hshape : ClusterShape n h isz ent m s)
    (hhash : polyHash k1 n = h)
    (hnew : ∀ o, o < m → (ent o).1 ≠ k1)
    (hent : ent m = (k1, k2, v)) :
    setItem s k1 k2 v = ({ s with
      array := s.array.set ((h + m) % n) (some (k1, mkInner isz k2 v)),
      count := s.count + 1, table_count := s.table_count + 1 }, .ok ()) ∧
    ClusterShape n h isz ent (m + 1) (setItem s k1 k2 v).1 := by
  obtain ⟨hlen, hsz, hisz, hsi, htc, hcnt, hocc, hempty⟩ := hshape
  have hmn : m < n := by omega
  have hpf : probeFind s.array k1 (hash1 s k1) s.array.length
      = .vacant ((h + m) % n) := by
    have hocc' : ∀ o, 0 ≤ o → o < 0 + m →
        ∃ k' v', slotAt s.array ((h + o) % n) = some (k', v') ∧ k' ≠ k1 := by
      intro o _ ho
      exact ⟨(ent o).1, mkInner isz (ent o).2.1 (ent o).2.2,
        hocc o (by omega), hnew o (by omega)⟩
    have hvac' : slotAt s.array ((h + (0 + m)) % n) = none := by
      rw [Nat.zero_add]
      refine hempty ((h + m) % n) (Nat.mod_lt _ (by omega)) ?_
      intro o ho heq
      exact absurd (shift_mod_inj n h m o hmn (by omega) heq) (by omega)
    have hskip := probeFind_skip s.array k1 n h hlen m 0 n (by omega) (by omega)
      hocc' hvac'
    rw [Nat.zero_add] at hskip
    have e1 : (h + 0) % n = h := by rw [Nat.add_zero, Nat.mod_eq_of_lt hh]
    rw [e1] at hskip
    have e2 : hash1 s k1 = h := by
      show polyHash k1 s.array.length = h
      rw [hlen, hhash]
    rw [e2, hlen]
    exact hskip
  have hjlt : (h + m) % n < s.array.length := by
    rw [hlen]
    exact Nat.mod_lt _ (by omega)
  have heq : setItem s k1 k2 v = ({ s with
      array := s.array.set ((h + m) % n) (some (k1, mkInner isz k2 v)),
      count := s.count + 1, table_count := s.table_count + 1 }, .ok ()) := by
    unfold setItem
    rw [outerProbe_true_vacant_eq s k1 k2 _ hpf]
    rw [show s.internal_sizes = isz from hisz]
    rw [innerProbe_fresh isz k2 (by omega)]
    simp only []
    rw [slotAt_set_self s.array _ _ hjlt]
    simp only []
    rw [show (freshInner isz : LPT V).array = List.replicate (isz.headD 0) none from rfl]
    rw [slotAt_replicate]
    simp only []
    rw [innerSet_fresh isz k2 v hc3]
    simp only []
    rw [set_set_same]
    have hcond : ¬ (2 * (s.table_count + 1)
        > ((s.array.set ((h + m) % n) (some (k1, mkInner isz k2 v))).length : Int)) := by
      simp only [List.length_set]
      rw [htc, hlen]
      intro hgt
      have hcast : (2 : Int) * ((m : Int) + 1) ≤ (n : Int) := by exact_mod_cast hload
      omega
    rw [if_neg hcond]
  refine ⟨heq, ?_⟩
  rw [heq]
  refine ⟨by simp [hlen], hsz, hisz, hsi, ?_, ?_, ?_, ?_⟩
  · show s.table_count + 1 = ((m + 1 : Nat) : Int)
    rw [htc]
    push_cast
    ring
  · show s.count + 1 = ((m + 1 : Nat) : Int)
    rw [hcnt]
    push_cast
    ring
  · intro o ho
    by_cases hom : o = m
    · subst hom
      show slotAt (s.array.set ((h + o) % n) (some (k1, mkInner isz k2 v))) ((h + o) % n) = _
      rw [slotAt_set_self s.array _ _ hjlt, hent]
    · have holt : o < m := by omega
      show slotAt (s.array.set ((h + m) % n) (some (k1, mkInner isz k2 v))) ((h + o) % n) = _
      rw [slotAt_set_ne]
      · exact hocc o holt
      · intro heq2
        exact absurd (shift_mod_inj n h m o hmn (by omega) heq2) (by omega)
  · intro q hq hq2
    show slotAt (s.array.set ((h + m) % n) (some (k1, mkInner isz k2 v))) q = none
    rw [slotAt_set_ne]
    · exact hempty q hq (fun o ho => hq2 o (by omega))
    · intro heq2
      exact (hq2 m (by omega)) heq2.symm

theorem buildCluster_spec {V : Type u} (n h : Nat) (isz : List Nat)
    (hh : h < n) (hc3 : 2 < isz.headD 0) :
    ∀ (rest : List (String × String × V)) (s : DKT V)
      (ent : Nat → String × String × V) (m : Nat),
      ClusterShape n h isz ent m s →
      2 * (m + rest.length) ≤ n →
      (∀ p ∈ rest, polyHash p.1 n = h) →
      (∀ o, o < m → ∀ p ∈ rest, (ent o).1 ≠ p.1) →
      List.Pairwise (fun a b => a.1 ≠ b.1) rest →
      (∀ u, (hu : u < rest.length) → ent (m + u) = rest.get ⟨u, hu⟩) →
      ClusterShape n h isz ent (m + rest.length)
        (rest.foldl (fun t p => (setItem t p.1 p.2.1 p.2.2).1) s) := by
  intro rest
  induction rest with
  | nil =>
    intro s ent m hshape _ _ _ _ _
    simpa using hshape
  | cons p rest ih =>
    intro s ent m hshape hload hhash hdisjoint hpw hent
    have hent0 : ent m = p := by
      have := hent 0 (by simp)
      simpa using this
    have hstep := setItem_cluster_step n h isz ent m s p.1 p.2.1 p.2.2 hh hc3
      (by simp at hload; omega)
      hshape
      (hhash p (List.mem_cons_self _ _))
      (fun o ho => hdisjoint o ho p (List.mem_cons_self _ _))
      (by rw [hent0])
    have hfold : (p :: rest).foldl (fun t q => (setItem t q.1 q.2.1 q.2.2).1) s
        = rest.foldl (fun t q => (setItem t q.1 q.2.1 q.2.2).1)
            ((setItem s p.1 p.2.1 p.2.2).1) := rfl
    rw [hfold]
    have hres := ih ((setItem s p.1 p.2.1 p.2.2).1) ent (m + 1) hstep.2
      (by simp at hload ⊢; omega)
      (fun q hq => hhash q (List.mem_cons_of_mem _ hq))
      ?_
      hpw.of_cons
      ?_
    · have : m + 1 + rest.length = m + (p :: rest).length := by simp; omega
      rwa [this] at hres
    · intro o ho q hq
      by_cases hom : o = m
      · subst hom
        rw [hent0]
        have := List.rel_of_pairwise_cons hpw hq
        exact this
      · exact hdisjoint o (by omega) q (List.mem_cons_of_mem _ hq)
    · intro u hu
      have := hent (u + 1) (by simpa using Nat.succ_lt_succ hu)
      have harith : m + (u + 1) = m + 1 + u := by omega
      rw [harith] at this
      rw [this]
      rfl

/-- The slot content of cluster entry `o`. -/
def entSlot {V : Type u} (isz : List Nat) (ent : Nat → String × String × V) (o : Nat) :
    Slot (LPT V) :=
  some ((ent o).1, mkInner isz (ent o).2.1 (ent o).2.2)

/-- The repair walk after clearing cluster offset `i`: every later cluster
entry is cleared and reinserted one offset lower (all keys share the hash
`h`, so each reinsertion probes from `h` and lands on the hole left just
behind the walk pointer), leaving the cluster shifted by one with the last
slot empty. -/
theorem outerWalk_shift {V : Type u} (n h j i : Nat) (isz : List Nat)
    (ent : Nat → String × String × V) (k2d : String)
    (hh : h < n) (hc3 : 2 < isz.headD 0) (hij : i < j) (hjn : 2 * j ≤ n)
    (hhash : ∀ o, o < j → polyHash (ent o).1 n = h)
    (hdistinct : ∀ o o', o < j → o' < j → o ≠ o' → (ent o).1 ≠ (ent o').1) :
    ∀ rem t (s : DKT V) fuel,
      i + t + 1 + rem = j →
      rem < fuel →
      s.array.length = n →
      s.internal_sizes = isz →
      (∀ o, o < i → slotAt s.array ((h + o) % n) = entSlot isz ent o) →
      (∀ o, i ≤ o → o < i + t → slotAt s.array ((h + o) % n) = entSlot isz ent (o + 1)) →
      slotAt s.array ((h + (i + t)) % n) = none →
      (∀ o, i + t < o → o < j → slotAt s.array ((h + o) % n) = entSlot isz ent o) →
      (∀ q, q < n → (∀ o, o < j → q ≠ (h + o) % n) → slotAt s.array q = none) →
      ∃ s', outerWalk k2d s ((h + (i + t + 1)) % n) fuel = (s', .ok ()) ∧
        s'.array.length = n ∧
        (∀ o, o < i → slotAt s'.array ((h + o) % n) = entSlot isz ent o) ∧
        (∀ o, i ≤ o → o < j - 1 → slotAt s'.array ((h + o) % n) = entSlot isz ent (o + 1)) ∧
        slotAt s'.array ((h + (j - 1)) % n) = none ∧
        (∀ q, q < n → (∀ o, o < j → q ≠ (h + o) % n) → slotAt s'.array q = none) ∧
        s'.count = s.count := by
  have hjltn : j < n := by omega
  intro rem
  induction rem with
  | zero =>
    intro t s fuel hrel hfuel hlen hinternal hpre hshift hhole hsuf hout
    have htj : i + t + 1 = j := by omega
    cases fuel with
    | zero => omega
    | succ f =>
      have hptr : slotAt s.array ((h + (i + t + 1)) % n) = none := by
        rw [htj]
        refine hout ((h + j) % n) (Nat.mod_lt _ (by omega)) ?_
        intro o ho heq
        exact absurd (shift_mod_inj n h j o hjltn (by omega) heq) (by omega)
      refine ⟨s, ?_, hlen, hpre, ?_, ?_, hout, rfl⟩
      · rw [outerWalk, hptr]
      · intro o ho1 ho2
        exact hshift o ho1 (by omega)
      · have : j - 1 = i + t := by omega
        rw [this]
        exact hhole
  | succ r ih =>
    intro t s fuel hrel hfuel hlen hinternal hpre hshift hhole hsuf hout
    cases fuel with
    | zero => omega
    | succ f =>
      have hcur : i + t + 1 < j := by omega
      have hP : slotAt s.array ((h + (i + t + 1)) % n) = entSlot isz ent (i + t + 1) :=
        hsuf (i + t + 1) (by omega) hcur
      have hPlt : (h + (i + t + 1)) % n < n := Nat.mod_lt _ (by omega)
      have hHlt : (h + (i + t)) % n < n := Nat.mod_lt _ (by omega)
      have hPH : (h + (i + t)) % n ≠ (h + (i + t + 1)) % n := by
        intro heq
        exact absurd (shift_mod_inj n h (i + t) (i + t + 1) (by omega) (by omega) heq)
          (by omega)
      rw [outerWalk, hP]
      rw [show entSlot isz ent (i + t + 1)
        = some ((ent (i + t + 1)).1,
            mkInner isz (ent (i + t + 1)).2.1 (ent (i + t + 1)).2.2) from rfl]
      simp only []
      -- the cleared state s₁ and the probe of the walked key
      have hs1len : (s.array.set ((h + (i + t + 1)) % n) none).length = n := by
        simpa using hlen
      have hs1get : ∀ q, q ≠ (h + (i + t + 1)) % n →
          slotAt (s.array.set ((h + (i + t + 1)) % n) none) q = slotAt s.array q := by
        intro q hq
        exact slotAt_set_ne s.array _ q none (fun hx => hq hx.symm)
      have hpf : probeFind (s.array.set ((h + (i + t + 1)) % n) none) (ent (i + t + 1)).1
          (hash1 ({ s with array := s.array.set ((h + (i + t + 1)) % n) none } : DKT V)
            (ent (i + t + 1)).1)
          (s.array.set ((h + (i + t + 1)) % n) none).length
          = .vacant ((h + (i + t)) % n) := by
        have hocc' : ∀ o, 0 ≤ o → o < 0 + (i + t) →
            ∃ k' v', slotAt (s.array.set ((h + (i + t + 1)) % n) none) ((h + o) % n)
              = some (k', v') ∧ k' ≠ (ent (i + t + 1)).1 := by
          intro o _ ho
          have hne : (h + o) % n ≠ (h + (i + t + 1)) % n := by
            intro heq
            exact absurd (shift_mod_inj n h o (i + t + 1) (by omega) (by omega) heq)
              (by omega)
          rw [hs1get _ hne]
          by_cases hoi : o < i
          · exact ⟨(ent o).1, mkInner isz (ent o).2.1 (ent o).2.2,
              by rw [hpre o hoi]; rfl,
              hdistinct o (i + t + 1) (by omega) (by omega) (by omega)⟩
          · exact ⟨(ent (o + 1)).1, mkInner isz (ent (o + 1)).2.1 (ent (o + 1)).2.2,
              by rw [hshift o (by omega) (by omega)]; rfl,
              hdistinct (o + 1) (i + t + 1) (by omega) (by omega) (by omega)⟩
        have hvac' : slotAt (s.array.set ((h + (i + t + 1)) % n) none)
            ((h + (0 + (i + t))) % n) = none := by
          rw [Nat.zero_add, hs1get _ hPH]
          exact hhole
        have hskip := probeFind_skip (s.array.set ((h + (i + t + 1)) % n) none)
          (ent (i + t + 1)).1 n h hs1len (i + t) 0 n (by omega) (by omega) hocc' hvac'
        rw [Nat.zero_add] at hskip
        have e1 : (h + 0) % n = h := by rw [Nat.add_zero, Nat.mod_eq_of_lt hh]
        rw [e1] at hskip
        have e2 : hash1 ({ s with array := s.array.set ((h + (i + t + 1)) % n) none } : DKT V)
            (ent (i + t + 1)).1 = h := by
          show polyHash (ent (i + t + 1)).1
            (s.array.set ((h + (i + t + 1)) % n) none).length = h
          rw [hs1len]
          exact hhash (i + t + 1) (by omega)
        rw [e2, hs1len]
        exact hskip
      rw [outerProbe_true_vacant_eq _ _ k2d _ hpf]
      rw [show ({ s with array := s.array.set ((h + (i + t + 1)) % n) none }
          : DKT V).internal_sizes = isz from hinternal]
      rw [innerProbe_fresh isz k2d (by omega)]
      simp only []
      rw [set_set_same]
      -- recurse on the shifted state
      have harith : ((h + (i + t + 1)) % n + 1) % s.array.length
          = (h + (i + (t + 1) + 1)) % n := by
        rw [hlen, Nat.mod_add_mod]
        have : h + (i + t + 1) + 1 = h + (i + (t + 1) + 1) := by omega
        rw [this]
      rw [harith]
      -- prefix unchanged
      have wpre0 : ∀ o, o < i →
          slotAt ((s.array.set ((h + (i + t + 1)) % n) none).set ((h + (i + t)) % n)
            (some ((ent (i + t + 1)).1,
              mkInner isz (ent (i + t + 1)).2.1 (ent (i + t + 1)).2.2)))
            ((h + o) % n) = entSlot isz ent o := by
        intro o ho
        have hne1 : (h + o) % n ≠ (h + (i + t)) % n := by
          intro heq
          exact absurd (shift_mod_inj n h o (i + t) (by omega) (by omega) heq) (by omega)
        have hne2 : (h + o) % n ≠ (h + (i + t + 1)) % n := by
          intro heq
          exact absurd (shift_mod_inj n h o (i + t + 1) (by omega) (by omega) heq)
            (by omega)
        rw [slotAt_set_ne _ _ _ _ (fun hx => hne1 hx.symm),
            slotAt_set_ne _ _ _ _ (fun hx => hne2 hx.symm)]
        exact hpre o ho
      -- shifted segment grows by one
      have wshift0 : ∀ o, i ≤ o → o < i + (t + 1) →
          slotAt ((s.array.set ((h + (i + t + 1)) % n) none).set ((h + (i + t)) % n)
            (some ((ent (i + t + 1)).1,
              mkInner isz (ent (i + t + 1)).2.1 (ent (i + t + 1)).2.2)))
            ((h + o) % n) = entSlot isz ent (o + 1) := by
        intro o ho1 ho2
        by_cases hoe : o = i + t
        · subst hoe
          rw [slotAt_set_self _ _ _ (by rw [hs1len]; exact hHlt)]
          rfl
        · have holt : o < i + t := by omega
          have hne1 : (h + o) % n ≠ (h + (i + t)) % n := by
            intro heq
            exact absurd (shift_mod_inj n h o (i + t) (by omega) (by omega) heq) (by omega)
          have hne2 : (h + o) % n ≠ (h + (i + t + 1)) % n := by
            intro heq
            exact absurd (shift_mod_inj n h o (i + t + 1) (by omega) (by omega) heq)
              (by omega)
          rw [slotAt_set_ne _ _ _ _ (fun hx => hne1 hx.symm),
              slotAt_set_ne _ _ _ _ (fun hx => hne2 hx.symm)]
          exact hshift o ho1 holt
      -- new hole at the old pointer
      have whole0 :
          slotAt ((s.array.set ((h + (i + t + 1)) % n) none).set ((h + (i + t)) % n)
            (some ((ent (i + t + 1)).1,
              mkInner isz (ent (i + t + 1)).2.1 (ent (i + t + 1)).2.2)))
            ((h + (i + (t + 1))) % n) = none := by
        have harith2 : i + (t + 1) = i + t + 1 := by omega
        rw [harith2]
        rw [slotAt_set_ne _ _ _ _ (fun hx => hPH hx)]
        exact slotAt_set_self s.array _ none (by rw [hlen]; exact hPlt)
      -- suffix unchanged
      have wsuf0 : ∀ o, i + (t + 1) < o → o < j →
          slotAt ((s.array.set ((h + (i + t + 1)) % n) none).set ((h + (i + t)) % n)
            (some ((ent (i + t + 1)).1,
              mkInner isz (ent (i + t + 1)).2.1 (ent (i + t + 1)).2.2)))
            ((h + o) % n) = entSlot isz ent o := by
        intro o ho1 ho2
        have hne1 : (h + o) % n ≠ (h + (i + t)) % n := by
          intro heq
          exact absurd (shift_mod_inj n h o (i + t) (by omega) (by omega) heq) (by omega)
        have hne2 : (h + o) % n ≠ (h + (i + t + 1)) % n := by
          intro heq
          exact absurd (shift_mod_inj n h o (i + t + 1) (by omega) (by omega) heq)
            (by omega)
        rw [slotAt_set_ne _ _ _ _ (fun hx => hne1 hx.symm),
            slotAt_set_ne _ _ _ _ (fun hx => hne2 hx.symm)]
        exact hsuf o (by omega) ho2
      -- slots outside the cluster stay empty
      have wout0 : ∀ q, q < n → (∀ o, o < j → q ≠ (h + o) % n) →
          slotAt ((s.array.set ((h + (i + t + 1)) % n) none).set ((h + (i + t)) % n)
            (some ((ent (i + t + 1)).1,
              mkInner isz (ent (i + t + 1)).2.1 (ent (i + t + 1)).2.2))) q = none := by
        intro q hq hq2
        have hne1 : q ≠ (h + (i + t)) % n := hq2 (i + t) (by omega)
        have hne2 : q ≠ (h + (i + t + 1)) % n := hq2 (i + t + 1) (by omega)
        rw [slotAt_set_ne _ _ _ _ (fun hx => hne1 hx.symm),
            slotAt_set_ne _ _ _ _ (fun hx => hne2 hx.symm)]
        exact hout q hq hq2
      obtain ⟨s', hwalk, wlen, wpre, wshift, whole, wout, wcount⟩ :=
        ih (t + 1) { s with array := (s.array.set ((h + (i + t + 1)) % n) none).set ((h + (i + t)) % n) (some ((ent (i + t + 1)).1, mkInner isz (ent (i + t + 1)).2.1 (ent (i + t + 1)).2.2)), table_count := s.table_count + 1, internal_sizes := isz } f (by omega) (by omega) (by simpa using hlen) rfl wpre0 wshift0 whole0 wsuf0 wout0
      exact ⟨s', hwalk, wlen, wpre, wshift, whole, wout, wcount⟩

/-- The table shape after deleting cluster entry `i`: the cluster prefix is
unchanged, every later entry sits one offset lower, the last cluster slot is
empty, and everything outside the cluster is empty. -/
def ShiftedShape {V : Type u} (n h : Nat) (isz : List Nat)
    (ent : Nat → String × String × V) (i m : Nat) (s : DKT V) : Prop :=
  s.array.length = n ∧
  (∀ o, o < i → slotAt s.array ((h + o) % n) = entSlot isz ent o) ∧
  (∀ o, i ≤ o → o < m - 1 → slotAt s.array ((h + o) % n) = entSlot isz ent (o + 1)) ∧
  slotAt s.array ((h + (m - 1)) % n) = none ∧
  (∀ q, q < n → (∀ o, o < m → q ≠ (h + o) % n) → slotAt s.array q = none)

/-- Deleting the cluster entry at offset `i` of an `m`-entry one-cluster
table succeeds and leaves the shifted cluster, with `count` down by one. -/
theorem delItem_cluster {V : Type u} (n h : Nat) (isz : List Nat)
    (ent : Nat → String × String × V) (m i : Nat) (s : DKT V)
    (hh : h < n) (hc3 : 2 < isz.headD 0) (him : i < m) (hmn : 2 * m ≤ n)
    (hhash : ∀ o, o < m → polyHash (ent o).1 n = h)
    (hdistinct : ∀ o o', o < m → o' < m → o ≠ o' → (ent o).1 ≠ (ent o').1)
    (hshape : ClusterShape n h isz ent m s) :
    ∃ s', delItem s (ent i).1 (ent i).2.1 = (s', .ok ()) ∧
      ShiftedShape n h isz ent i m s' ∧ s'.count = s.count - 1 := by
  obtain ⟨hlen, _hsz, hisz, _hsi, _htc, _hcnt, hocc, hempty⟩ := hshape
  have hplt : (h + i) % n < n := Nat.mod_lt _ (by omega)
  have hfound : probeFind s.array (ent i).1 (hash1 s (ent i).1) s.array.length
      = .found ((h + i) % n) := by
    have hocc' : ∀ o, 0 ≤ o → o < 0 + i →
        ∃ k' v', slotAt s.array ((h + o) % n) = some (k', v') ∧ k' ≠ (ent i).1 := by
      intro o _ ho
      exact ⟨(ent o).1, mkInner isz (ent o).2.1 (ent o).2.2, hocc o (by omega),
        hdistinct o i (by omega) (by omega) (by omega)⟩
    have hfnd' : ∃ v, slotAt s.array ((h + (0 + i)) % n) = some ((ent i).1, v) := by
      rw [Nat.zero_add]
      exact ⟨mkInner isz (ent i).2.1 (ent i).2.2, hocc i him⟩
    have hskip := probeFind_skip_found s.array (ent i).1 n h hlen i 0 n (by omega)
      (by omega) hocc' hfnd'
    rw [Nat.zero_add] at hskip
    have e1 : (h + 0) % n = h := by rw [Nat.add_zero, Nat.mod_eq_of_lt hh]
    rw [e1] at hskip
    have e2 : hash1 s (ent i).1 = h := by
      show polyHash (ent i).1 s.array.length = h
      rw [hlen]
      exact hhash i him
    rw [e2, hlen]
    exact hskip
  have hslot : slotAt s.array ((h + i) % n)
      = some ((ent i).1, mkInner isz (ent i).2.1 (ent i).2.2) := hocc i him
  obtain ⟨hip, _⟩ := mkInner_probe isz (ent i).2.1 (ent i).2.2 hc3
  have houter : outerProbe s (ent i).1 (ent i).2.1 false
      = (s, .ok ((h + i) % n, polyHash (ent i).2.1 (isz.headD 0))) := by
    rw [outerProbe_found_eq s (ent i).1 (ent i).2.1 false _ hfound, hslot]
    simp only []
    rw [hip]
  have hdelInner := mkInner_del isz (ent i).2.1 (ent i).2.2 hc3
  -- the cleared state handed to the repair walk
  have hapre : ∀ o, o < i →
      slotAt (s.array.set ((h + i) % n) none) ((h + o) % n) = entSlot isz ent o := by
    intro o ho
    have hne : (h + i) % n ≠ (h + o) % n := fun heq =>
      absurd (shift_mod_inj n h i o (by omega) (by omega) heq) (by omega)
    rw [slotAt_set_ne _ _ _ _ hne]
    exact hocc o (by omega)
  have hahole : slotAt (s.array.set ((h + i) % n) none) ((h + (i + 0)) % n) = none :=
    slotAt_set_self s.array _ none (by rw [hlen]; exact hplt)
  have hasuf : ∀ o, i + 0 < o → o < m →
      slotAt (s.array.set ((h + i) % n) none) ((h + o) % n) = entSlot isz ent o := by
    intro o ho1 ho2
    have hne : (h + i) % n ≠ (h + o) % n := fun heq =>
      absurd (shift_mod_inj n h i o (by omega) (by omega) heq) (by omega)
    rw [slotAt_set_ne _ _ _ _ hne]
    exact hocc o ho2
  have haout : ∀ q, q < n → (∀ o, o < m → q ≠ (h + o) % n) →
      slotAt (s.array.set ((h + i) % n) none) q = none := by
    intro q hq hq2
    have hne : (h + i) % n ≠ q := fun heq => (hq2 i him) heq.symm
    rw [slotAt_set_ne _ _ _ _ hne]
    exact hempty q hq hq2
  obtain ⟨s', hwalk, wlen, wpre, wshift, whole, wout, wcount⟩ :=
    outerWalk_shift n h m i isz ent (ent i).2.1 hh hc3 him hmn hhash hdistinct
      (m - i - 1) 0
      { s with array := s.array.set ((h + i) % n) none,
               count := s.count - 1, table_count := s.table_count - 1 }
      n (by omega) (by omega) (by simpa using hlen) hisz hapre
      (fun o ho1 ho2 => absurd ho2 (by omega)) hahole hasuf haout
  refine ⟨s', ?_, ⟨wlen, wpre, wshift, whole, wout⟩, wcount⟩
  unfold delItem
  rw [houter]
  simp only []
  rw [hslot]
  simp only []
  rw [hdelInner]
  simp only []
  rw [if_true]
  rw [set_set_same]
  simp only [List.length_set]
  rw [hlen, Nat.mod_add_mod]
  exact hwalk

/-- A successful non-insert probe that lands on a singleton inner table
makes `__getitem__` return that inner table's single value. -/
theorem getItem_found_mkInner {V : Type u} (s : DKT V) (isz : List Nat)
    (k1 k2 : String) (v : V) (p1 : Nat) (hc3 : 2 < isz.headD 0)
    (hfound : probeFind s.array k1 (hash1 s k1) s.array.length = .found p1)
    (hslot : slotAt s.array p1 = some (k1, mkInner isz k2 v)) :
    getItem s k1 k2 = .ok v := by
  obtain ⟨hip, hs2⟩ := mkInner_probe isz k2 v hc3
  unfold getItem
  rw [outerProbe_found_eq s k1 k2 false p1 hfound]
  rw [hslot]
  simp only []
  rw [hip]
  simp only []
  rw [hslot]
  simp only []
  rw [hs2]

/-- On a shifted one-cluster table every surviving entry is retrievable. -/
theorem shifted_getItem {V : Type u} (n h : Nat) (isz : List Nat)
    (ent : Nat → String × String × V) (m i : Nat) (s : DKT V)
    (hh : h < n) (hc3 : 2 < isz.headD 0) (him : i < m) (hmn : 2 * m ≤ n)
    (hhash : ∀ o, o < m → polyHash (ent o).1 n = h)
    (hdistinct : ∀ o o', o < m → o' < m → o ≠ o' → (ent o).1 ≠ (ent o').1)
    (hshape : ShiftedShape n h isz ent i m s) :
    ∀ jx, jx < m → jx ≠ i →
      getItem s (ent jx).1 (ent jx).2.1 = .ok (ent jx).2.2 := by
  obtain ⟨hlen, hpre, hshift, hhole, hout⟩ := hshape
  intro jx hjm hji
  have hhash1 : hash1 s (ent jx).1 = h := by
    show polyHash (ent jx).1 s.array.length = h
    rw [hlen]
    exact hhash jx hjm
  rcases Nat.lt_or_ge jx i with hlt | hge
  · -- survivor in the unchanged cluster head
    have hfound : probeFind s.array (ent jx).1 (hash1 s (ent jx).1) s.array.length
        = .found ((h + jx) % n) := by
      have hocc' : ∀ o, 0 ≤ o → o < 0 + jx →
          ∃ k' v', slotAt s.array ((h + o) % n) = some (k', v') ∧ k' ≠ (ent jx).1 := by
        intro o _ ho
        refine ⟨(ent o).1, mkInner isz (ent o).2.1 (ent o).2.2, ?_, ?_⟩
        · rw [hpre o (by omega)]
          rfl
        · exact hdistinct o jx (by omega) (by omega) (by omega)
      have hfnd' : ∃ v, slotAt s.array ((h + (0 + jx)) % n) = some ((ent jx).1, v) := by
        rw [Nat.zero_add]
        exact ⟨mkInner isz (ent jx).2.1 (ent jx).2.2, by rw [hpre jx hlt]; rfl⟩
      have hskip := probeFind_skip_found s.array (ent jx).1 n h hlen jx 0 n (by omega)
        (by omega) hocc' hfnd'
      rw [Nat.zero_add] at hskip
      have e1 : (h + 0) % n = h := by rw [Nat.add_zero, Nat.mod_eq_of_lt hh]
      rw [e1] at hskip
      rw [hhash1, hlen]
      exact hskip
    exact getItem_found_mkInner s isz (ent jx).1 (ent jx).2.1 (ent jx).2.2 _ hc3 hfound
      (by rw [hpre jx hlt]; rfl)
  · -- survivor in the shifted tail
    have hji' : i < jx := by omega
    have hfound : probeFind s.array (ent jx).1 (hash1 s (ent jx).1) s.array.length
        = .found ((h + (jx - 1)) % n) := by
      have hocc' : ∀ o, 0 ≤ o → o < 0 + (jx - 1) →
          ∃ k' v', slotAt s.array ((h + o) % n) = some (k', v') ∧ k' ≠ (ent jx).1 := by
        intro o _ ho
        rcases Nat.lt_or_ge o i with ho2 | ho2
        · refine ⟨(ent o).1, mkInner isz (ent o).2.1 (ent o).2.2, ?_, ?_⟩
          · rw [hpre o ho2]
            rfl
          · exact hdistinct o jx (by omega) (by omega) (by omega)
        · refine ⟨(ent (o + 1)).1, mkInner isz (ent (o + 1)).2.1 (ent (o + 1)).2.2, ?_, ?_⟩
          · rw [hshift o ho2 (by omega)]
            rfl
          · exact hdistinct (o + 1) jx (by omega) (by omega) (by omega)
      have hfnd' : ∃ v, slotAt s.array ((h + (0 + (jx - 1))) % n)
          = some ((ent jx).1, v) := by
        rw [Nat.zero_add]
        refine ⟨mkInner isz (ent jx).2.1 (ent jx).2.2, ?_⟩
        have hsl := hshift (jx - 1) (by omega) (by omega)
        have hjj : jx - 1 + 1 = jx := by omega
        rw [hjj] at hsl
        rw [hsl]
        rfl
      have hskip := probeFind_skip_found s.array (ent jx).1 n h hlen (jx - 1) 0 n
        (by omega) (by omega) hocc' hfnd'
      rw [Nat.zero_add] at hskip
      have e1 : (h + 0) % n = h := by rw [Nat.add_zero, Nat.mod_eq_of_lt hh]
      rw [e1] at hskip
      rw [hhash1, hlen]
      exact hskip
    refine getItem_found_mkInner s isz (ent jx).1 (ent jx).2.1 (ent jx).2.2 _ hc3 hfound ?_
    have hsl := hshift (jx - 1) (by omega) (by omega)
    have hjj : jx - 1 + 1 = jx := by omega
    rw [hjj] at hsl
    rw [hsl]
    rfl

theorem getD_lt_eq {α : Type u} (l : List α) (d : α) :
    ∀ o, ∀ ho : o < l.length, l.getD o d = l.get ⟨o, ho⟩ := by
  induction l with
  | nil =>
    intro o ho
    simp at ho
  | cons a t ih =>
    intro o ho
    cases o with
    | zero => rfl
    | succ q => exact ih q (by simpa using ho)

/-- The one-cluster scenario of spec section 8: fold `__setitem__` over a
list of `(key1, key2, value)` triples on a fresh table with outer size
sequence `[n]`. -/
def buildCluster {V : Type u} (n : Nat) (isz : List Nat)
    (ks : List (String × String × V)) : DKT V :=
  ks.foldl (fun t p => (setItem t p.1 p.2.1 p.2.2).1) (initDKT (some [n]) (some isz))

/-- C4: for any insert sequence whose outer keys all collide into one probe
cluster (every outer key hashes to the same outer position `hsh`, keys
pairwise distinct, load within capacity), deleting the entry at cluster
index `i` — which clears an outer slot in the middle of the cluster —
succeeds, and afterwards every surviving entry is still retrievable by
`__getitem__` (the repair walk loses nothing), with `len()` down by one. -/
theorem c4_cluster_repair {V : Type u} (n hsh : Nat) (isz : List Nat)
    (ks : List (String × String × V)) (i : Nat)
    (hh : hsh < n) (hc3 : 2 < isz.headD 0) (hload : 2 * ks.length ≤ n)
    (hhash : ∀ p ∈ ks, polyHash p.1 n = hsh)
    (hdist : List.Pairwise (fun a b => a.1 ≠ b.1) ks)
    (hi : i < ks.length) :
    ∃ s', delItem (buildCluster n isz ks) (ks.get ⟨i, hi⟩).1 (ks.get ⟨i, hi⟩).2.1
        = (s', .ok ()) ∧
      (∀ j, ∀ hj : j < ks.length, j ≠ i →
        getItem s' (ks.get ⟨j, hj⟩).1 (ks.get ⟨j, hj⟩).2.1
          = .ok (ks.get ⟨j, hj⟩).2.2) ∧
      lenDKT s' = lenDKT (buildCluster n isz ks) - 1 := by
  have henthash : ∀ o, o < ks.length →
      polyHash (ks.getD o (ks.get ⟨i, hi⟩)).1 n = hsh := by
    intro o ho
    rw [getD_lt_eq ks _ o ho]
    exact hhash _ (ks.get_mem _ _)
  have hpairget : ∀ o o', o < ks.length → o' < ks.length → o ≠ o' →
      (ks.getD o (ks.get ⟨i, hi⟩)).1 ≠ (ks.getD o' (ks.get ⟨i, hi⟩)).1 := by
    intro o o' ho ho' hne
    rw [getD_lt_eq ks _ o ho, getD_lt_eq ks _ o' ho']
    rcases Nat.lt_or_ge o o' with hlt | hge
    · exact List.pairwise_iff_get.mp hdist ⟨o, ho⟩ ⟨o', ho'⟩ hlt
    · have hlt' : o' < o := by omega
      exact (List.pairwise_iff_get.mp hdist ⟨o', ho'⟩ ⟨o, ho⟩ hlt').symm
  have hshape0 := clusterShape_init (V := V) n hsh isz
    (fun o => ks.getD o (ks.get ⟨i, hi⟩))
  have hbuilt := buildCluster_spec n hsh isz hh hc3 ks (initDKT (some [n]) (some isz))
    (fun o => ks.getD o (ks.get ⟨i, hi⟩)) 0 hshape0
    (by simpa using hload)
    hhash
    (fun o ho => absurd ho (by omega))
    hdist
    (fun u hu => by
      show ks.getD (0 + u) (ks.get ⟨i, hi⟩) = ks.get ⟨u, hu⟩
      rw [Nat.zero_add]
      exact getD_lt_eq ks _ u hu)
  rw [Nat.zero_add] at hbuilt
  have hbuilt' : ClusterShape n hsh isz (fun o => ks.getD o (ks.get ⟨i, hi⟩))
      ks.length (buildCluster n isz ks) := hbuilt
  obtain ⟨s', hdel, hshp, hcnt⟩ := delItem_cluster n hsh isz
    (fun o => ks.getD o (ks.get ⟨i, hi⟩)) ks.length i (buildCluster n isz ks)
    hh hc3 hi hload henthash hpairget hbuilt'
  have hix : ks.getD i (ks.get ⟨i, hi⟩) = ks.get ⟨i, hi⟩ := getD_lt_eq ks _ i hi
  rw [hix] at hdel
  refine ⟨s', hdel, ?_, ?_⟩
  · intro j hj hji
    have hg := shifted_getItem n hsh isz (fun o => ks.getD o (ks.get ⟨i, hi⟩))
      ks.length i s' hh hc3 hi hload henthash hpairget hshp j hj hji
    simp only [] at hg
    rwa [getD_lt_eq ks _ j hj] at hg
  · exact hcnt

/-- Witness for C4: outer size 11, keys "Z", "e", "p" all hash to 2 mod 11,
delete the middle cluster entry ("e","b"), the two survivors stay
retrievable and len drops by one. -/
theorem c4_cluster_repair_witness :
    (∀ p ∈ [("Z", "a", (1 : Nat)), ("e", "b", 2), ("p", "c", 3)],
      polyHash p.1 11 = 2) ∧
    ∃ s',
      delItem (buildCluster 11 [7] [("Z", "a", (1 : Nat)), ("e", "b", 2), ("p", "c", 3)])
          (([("Z", "a", (1 : Nat)), ("e", "b", 2), ("p", "c", 3)].get ⟨1, by decide⟩).1)
          (([("Z", "a", (1 : Nat)), ("e", "b", 2), ("p", "c", 3)].get ⟨1, by decide⟩).2.1)
        = (s', .ok ()) ∧
      (∀ j, ∀ hj : j < [("Z", "a", (1 : Nat)), ("e", "b", 2), ("p", "c", 3)].length,
        j ≠ 1 →
        getItem s' ([("Z", "a", (1 : Nat)), ("e", "b", 2), ("p", "c", 3)].get ⟨j, hj⟩).1
            ([("Z", "a", (1 : Nat)), ("e", "b", 2), ("p", "c", 3)].get ⟨j, hj⟩).2.1
          = .ok ([("Z", "a", (1 : Nat)), ("e", "b", 2), ("p", "c", 3)].get ⟨j, hj⟩).2.2) ∧
      lenDKT s'
        = lenDKT (buildCluster 11 [7]
            [("Z", "a", (1 : Nat)), ("e", "b", 2), ("p", "c", 3)]) - 1 :=
  ⟨by decide,
   c4_cluster_repair 11 2 [7] [("Z", "a", (1 : Nat)), ("e", "b", 2), ("p", "c", 3)] 1
     (by decide) (by decide) (by decide) (by decide) (by decide) (by decide)⟩
